import Mathlib

/-!
# Coin-Op Secure Session Vault — verification development

Shallow embedding of the Coin-Op browser-extension wallet core:

* the Vault Codec (`src/lib/crypto.ts`): password-based AES-GCM encryption
  of the wallet seed, with PBKDF2 key derivation, base64 packaging and a
  JSON wire format;
* the Session State Machine and Privileged Message Router
  (`src/background/index.ts`): in-memory session state, lock/unlock/status
  transitions, and the typed request/response protocol.

Platform primitives (Web Crypto, `btoa`/`atob`, `TextEncoder`/`TextDecoder`,
`JSON.parse`/`JSON.stringify`) are not repository code; they are modelled
here executably and faithfully to their platform specifications, except the
cryptographic core itself, which is idealized (see `subtleEncrypt`).
-/

namespace CoinOp

/-- A list of natural numbers is byte-valued (every entry below 256).
`Uint8Array` contents are modelled as `List Nat` under this predicate. -/
def bytesOk (bs : List Nat) : Prop := ∀ b ∈ bs, b < 256

instance (bs : List Nat) : Decidable (bytesOk bs) := by
  unfold bytesOk; infer_instance

/-! ## Prefix-decodable byte encoding used by the idealized cipher

A variable-length-quantity encoding of naturals (7 data bits per byte, high
bit marks a continuation), extended to lists and strings.  It is injective
and prefix-decodable, which is what the idealized AEAD header needs. -/

/-- Variable-length-quantity encoding of a natural number into bytes,
with structural fuel (the fuel never runs out when it is at least the
number being encoded). -/
def encNatAux : Nat → Nat → List Nat
  | 0, n => [n % 128]
  | fuel + 1, n =>
    if n < 128 then [n] else (n % 128 + 128) :: encNatAux fuel (n / 128)

/-- Variable-length-quantity encoding of a natural number into bytes. -/
def encNat (n : Nat) : List Nat := encNatAux n n

/-- Length-prefixed encoding of a list of naturals into bytes. -/
def encList (xs : List Nat) : List Nat :=
  encNat xs.length ++ xs.flatMap encNat

/-- Length-prefixed encoding of a string (per-character scalar values). -/
def encStr (s : String) : List Nat :=
  encList (s.data.map Char.toNat)

/-! ## Idealized Web Crypto primitives

`crypto.subtle` is a platform primitive, not repository code.  It is
modelled executably in the ideal-cipher style:

* `deriveKey` (PBKDF2-SHA-256, 100 000 iterations in the source) is
  idealized as the injective pair of its inputs — this captures exactly the
  determinism the source relies on ("same `(password, salt)` always yields
  the same key") plus ideal collision-freedom;
* AES-256-GCM encryption is idealized as a ciphertext that carries a
  prefix-decodable header identifying the key and iv followed by the
  plaintext bytes; decryption strips the header when it matches and fails
  (authentication failure) otherwise.  This gives the two properties of an
  ideal AEAD the source relies on: decryption under the encrypting key and
  iv returns the plaintext, and decryption under any other key fails. -/

/-- Modelled from the platform: the PBKDF2-derived AES key.  Idealized as
the `(password, salt)` input pair, which is deterministic and injective. -/
structure DerivedKey where
  password : String
  salt : List Nat
deriving DecidableEq, Repr

/-- Modelled from the platform: `deriveKey(password, salt)` from
`src/lib/crypto.ts` (PBKDF2, 100 000 iterations, SHA-256, AES-GCM-256 key). -/
def deriveKey (password : String) (salt : List Nat) : DerivedKey :=
  ⟨password, salt⟩

/-- The idealized AEAD header identifying the key and iv of a ciphertext. -/
def aeadHeader (key : DerivedKey) (iv : List Nat) : List Nat :=
  encStr key.password ++ encList key.salt ++ encList iv

/-- Modelled from the platform: `crypto.subtle.encrypt` with AES-GCM
(idealized, see section comment). -/
def subtleEncrypt (key : DerivedKey) (iv pt : List Nat) : List Nat :=
  aeadHeader key iv ++ pt

/-- Modelled from the platform: `crypto.subtle.decrypt` with AES-GCM
(idealized); `none` is the platform `OperationError` on authentication
failure. -/
def subtleDecrypt (key : DerivedKey) (iv ct : List Nat) : Option (List Nat) :=
  if (aeadHeader key iv).isPrefixOf ct then
    some (ct.drop (aeadHeader key iv).length)
  else
    none

/-! ## Base64 (`btoa` / `atob` and the converters from `src/lib/crypto.ts`)

`uint8ArrayToBase64` turns bytes into a binary string and calls `btoa`;
`base64ToUint8Array` calls `atob` and reads char codes.  Both platform
functions are modelled here: `btoa` as standard base64 with padding,
`atob` as the WHATWG forgiving-base64 decode (strip ASCII whitespace,
strip up to two trailing `=` when the length is a multiple of four, fail
on a remaining length of 1 mod 4 or on characters outside the alphabet). -/

/-- The 64-character base64 alphabet. -/
def b64Alphabet : List Char :=
  ['A', 'B', 'C', 'D', 'E', 'F', 'G', 'H', 'I', 'J', 'K', 'L', 'M',
   'N', 'O', 'P', 'Q', 'R', 'S', 'T', 'U', 'V', 'W', 'X', 'Y', 'Z',
   'a', 'b', 'c', 'd', 'e', 'f', 'g', 'h', 'i', 'j', 'k', 'l', 'm',
   'n', 'o', 'p', 'q', 'r', 's', 't', 'u', 'v', 'w', 'x', 'y', 'z',
   '0', '1', '2', '3', '4', '5', '6', '7', '8', '9', '+', '/']

/-- Character for a 6-bit value. -/
def alpha (v : Nat) : Char := b64Alphabet.getD v 'A'

/-- Index of a character in a character list. -/
def charIndex (c : Char) : List Char → Option Nat
  | [] => none
  | d :: rest => if c = d then some 0 else (charIndex c rest).map (· + 1)

/-- The 6-bit value of a base64 character, `none` outside the alphabet. -/
def charToVal (c : Char) : Option Nat := charIndex c b64Alphabet

/-- The unpadded 6-bit value sequence of a byte list (three bytes to four
values, with partial final groups of two or three values). -/
def b64Vals : List Nat → List Nat
  | [] => []
  | [b0] => [b0 / 4, b0 % 4 * 16]
  | [b0, b1] => [b0 / 4, b0 % 4 * 16 + b1 / 16, b1 % 16 * 4]
  | b0 :: b1 :: b2 :: rest =>
      b0 / 4 :: (b0 % 4 * 16 + b1 / 16) :: (b1 % 16 * 4 + b2 / 64) ::
        b2 % 64 :: b64Vals rest

/-- Number of `=` padding characters for a byte list. -/
def b64Pad : List Nat → Nat
  | [] => 0
  | [_] => 2
  | [_, _] => 1
  | _ :: _ :: _ :: rest => b64Pad rest

/-- Modelled from the platform: `uint8ArrayToBase64` from
`src/lib/crypto.ts` (bytes to a binary string, then `btoa`).  The source's
8192-element chunking is a pure-concatenation optimization with identical
output. -/
def uint8ArrayToBase64 (bs : List Nat) : String :=
  ⟨(b64Vals bs).map alpha ++ List.replicate (b64Pad bs) '='⟩

/-- ASCII whitespace stripped by forgiving-base64. -/
def isB64Ws (c : Char) : Bool :=
  c = '\x09' || c = '\x0a' || c = '\x0c' || c = '\x0d' || c = ' '

/-- Remove up to two trailing `=` characters. -/
def dropTrailingEq (cs : List Char) : List Char :=
  let r := cs.reverse
  let r' :=
    if r.take 2 = ['=', '='] then r.drop 2
    else if r.take 1 = ['='] then r.drop 1
    else r
  r'.reverse

/-- Decode a sequence of 6-bit values into bytes (four values to three
bytes; a trailing group of two or three values yields one or two bytes,
discarding the unused low bits, as forgiving-base64 does). -/
def b64DecodeVals : List Nat → Option (List Nat)
  | [] => some []
  | [_] => none
  | [v0, v1] => some [v0 * 4 + v1 / 16]
  | [v0, v1, v2] => some [v0 * 4 + v1 / 16, v1 % 16 * 16 + v2 / 4]
  | v0 :: v1 :: v2 :: v3 :: rest => do
      let tail ← b64DecodeVals rest
      pure ((v0 * 4 + v1 / 16) :: (v1 % 16 * 16 + v2 / 4) ::
            (v2 % 4 * 64 + v3) :: tail)

/-- Look up the 6-bit values of all characters, failing on any character
outside the alphabet. -/
def charsToVals : List Char → Option (List Nat)
  | [] => some []
  | c :: rest =>
    match charToVal c, charsToVals rest with
    | some v, some vs => some (v :: vs)
    | _, _ => none

/-- Strip trailing padding when the length is a multiple of four
(forgiving-base64 step 3). -/
def b64StripPad (cs : List Char) : List Char :=
  if cs.length % 4 = 0 then dropTrailingEq cs else cs

/-- Modelled from the platform: `base64ToUint8Array` from
`src/lib/crypto.ts` (`atob` with the WHATWG forgiving-base64 algorithm,
then char codes).  `none` models the `InvalidCharacterError` thrown by
`atob`. -/
def base64ToUint8Array (s : String) : Option (List Nat) :=
  let cs := b64StripPad (s.data.filter (fun c => !isB64Ws c))
  if cs.length % 4 = 1 then none
  else (charsToVals cs).bind b64DecodeVals

/-! ## UTF-8 (`TextEncoder` / `TextDecoder`)

`TextEncoder.encode` is standard UTF-8 encoding of the string's Unicode
scalar values; `TextDecoder.decode` (default options) is total, emitting
U+FFFD on malformed input.  The replacement placement below is a
simplification of the WHATWG state machine (skip one byte per error);
decoding is exact on well-formed input, which is all the theorems use. -/

/-- Modelled from the platform: UTF-8 bytes of one Unicode scalar value. -/
def utf8EncodeChar (c : Char) : List Nat :=
  let v := c.toNat
  if v < 0x80 then [v]
  else if v < 0x800 then [0xC0 + v / 64, 0x80 + v % 64]
  else if v < 0x10000 then
    [0xE0 + v / 4096, 0x80 + v / 64 % 64, 0x80 + v % 64]
  else
    [0xF0 + v / 262144, 0x80 + v / 4096 % 64, 0x80 + v / 64 % 64,
     0x80 + v % 64]

/-- Modelled from the platform: `TextEncoder.encode`. -/
def utf8Encode (s : String) : List Nat := s.data.flatMap utf8EncodeChar

/-- Modelled from the platform: the WHATWG UTF-8 decoder state machine of
`TextDecoder.decode` (non-fatal).  Arguments: accumulated code point,
remaining continuation-byte count, and the lower/upper boundary for the
next byte (this is how the platform excludes overlong forms, surrogates
and values above U+10FFFF).  Simplification: on a boundary error the
offending byte is dropped with a single U+FFFD instead of being
re-processed; decoding is exact on well-formed input. -/
def utf8DecodeSM (cp needed lo hi : Nat) : List Nat → List Char
  | [] => if needed = 0 then [] else ['\uFFFD']
  | b :: rest =>
    if needed = 0 then
      if b < 0x80 then Char.ofNat b :: utf8DecodeSM 0 0 0x80 0xBF rest
      else if 0xC2 ≤ b ∧ b ≤ 0xDF then
        utf8DecodeSM (b - 0xC0) 1 0x80 0xBF rest
      else if b = 0xE0 then utf8DecodeSM 0 2 0xA0 0xBF rest
      else if b = 0xED then utf8DecodeSM 13 2 0x80 0x9F rest
      else if 0xE1 ≤ b ∧ b ≤ 0xEF then
        utf8DecodeSM (b - 0xE0) 2 0x80 0xBF rest
      else if b = 0xF0 then utf8DecodeSM 0 3 0x90 0xBF rest
      else if b = 0xF4 then utf8DecodeSM 4 3 0x80 0x8F rest
      else if 0xF1 ≤ b ∧ b ≤ 0xF3 then
        utf8DecodeSM (b - 0xF0) 3 0x80 0xBF rest
      else '\uFFFD' :: utf8DecodeSM 0 0 0x80 0xBF rest
    else
      if lo ≤ b ∧ b ≤ hi then
        if needed = 1 then
          Char.ofNat (cp * 64 + (b - 0x80)) :: utf8DecodeSM 0 0 0x80 0xBF rest
        else
          utf8DecodeSM (cp * 64 + (b - 0x80)) (needed - 1) 0x80 0xBF rest
      else '\uFFFD' :: utf8DecodeSM 0 0 0x80 0xBF rest

/-- Modelled from the platform: `TextDecoder.decode` (UTF-8, non-fatal). -/
def utf8Decode (bs : List Nat) : String := ⟨utf8DecodeSM 0 0 0x80 0xBF bs⟩

/-! ## JSON (`JSON.parse` / `JSON.stringify`)

The vault blob crosses storage as a JSON document, produced by
`JSON.stringify` and consumed by `JSON.parse`.  Both are platform
primitives; they are modelled executably below.  Numbers are kept as
their lexemes (the vault code never reads a numeric value), and string
escapes decode `\" \\ \/ \b \f \n \r \t \uXXXX` without surrogate-pair
combination — both irrelevant to the blob wire format, whose strings are
base64. -/

/-- A parsed JSON value. -/
inductive Json where
  | null : Json
  | bool (b : Bool) : Json
  | num (lexeme : String) : Json
  | str (s : String) : Json
  | arr (elements : List Json) : Json
  | obj (members : List (String × Json)) : Json

/-- JSON insignificant whitespace. -/
def jsonWs (c : Char) : Bool :=
  c = ' ' || c = '\t' || c = '\n' || c = '\x0d'

/-- Skip insignificant whitespace. -/
def skipWs (cs : List Char) : List Char := cs.dropWhile jsonWs

/-- Value of a hexadecimal digit. -/
def hexVal (c : Char) : Option Nat :=
  if '0' ≤ c ∧ c ≤ '9' then some (c.toNat - '0'.toNat)
  else if 'a' ≤ c ∧ c ≤ 'f' then some (c.toNat - 'a'.toNat + 10)
  else if 'A' ≤ c ∧ c ≤ 'F' then some (c.toNat - 'A'.toNat + 10)
  else none

/-- Single-character JSON escapes. -/
def escChar (c : Char) : Option Char :=
  if c = '"' then some '"'
  else if c = '\\' then some '\\'
  else if c = '/' then some '/'
  else if c = 'b' then some '\x08'
  else if c = 'f' then some '\x0c'
  else if c = 'n' then some '\n'
  else if c = 'r' then some '\x0d'
  else if c = 't' then some '\t'
  else none

/-- Parse the body of a JSON string after the opening quote; returns the
content and the input after the closing quote. -/
def parseStringBody : List Char → Option (List Char × List Char)
  | [] => none
  | c :: rest =>
    if c = '"' then some ([], rest)
    else if c = '\\' then
      match rest with
      | 'u' :: h1 :: h2 :: h3 :: h4 :: rest' =>
        match hexVal h1, hexVal h2, hexVal h3, hexVal h4 with
        | some v1, some v2, some v3, some v4 =>
          (parseStringBody rest').map fun p =>
            (Char.ofNat (((v1 * 16 + v2) * 16 + v3) * 16 + v4) :: p.1, p.2)
        | _, _, _, _ => none
      | e :: rest' =>
        match escChar e with
        | some ec => (parseStringBody rest').map fun p => (ec :: p.1, p.2)
        | none => none
      | [] => none
    else if c.toNat < 0x20 then none
    else (parseStringBody rest).map fun p => (c :: p.1, p.2)

/-- Parse the optional exponent part; `lexeme` is what was read so far. -/
def parseExpPart (lexeme : List Char) (cs : List Char) :
    Option (List Char × List Char) :=
  match cs with
  | e :: cs' =>
    if e = 'e' ∨ e = 'E' then
      let (sign, cs'') :=
        match cs' with
        | '+' :: t => (['+'], t)
        | '-' :: t => (['-'], t)
        | _ => (([] : List Char), cs')
      let (ds, cs3) := cs''.span (·.isDigit)
      if ds = [] then none else some (lexeme ++ e :: sign ++ ds, cs3)
    else some (lexeme, cs)
  | [] => some (lexeme, cs)

/-- Parse the optional fraction part and then the exponent. -/
def parseFracPart (lexeme : List Char) (cs : List Char) :
    Option (List Char × List Char) :=
  match cs with
  | '.' :: cs' =>
    let (ds, cs'') := cs'.span (·.isDigit)
    if ds = [] then none else parseExpPart (lexeme ++ '.' :: ds) cs''
  | _ => parseExpPart lexeme cs

/-- Parse a JSON number (sign, integer part without leading zeros,
fraction, exponent); returns the lexeme and the rest. -/
def parseNumber (cs : List Char) : Option (List Char × List Char) :=
  let (sign, cs1) :=
    match cs with
    | '-' :: t => ((['-'] : List Char), t)
    | _ => (([] : List Char), cs)
  match cs1 with
  | '0' :: cs2 => parseFracPart (sign ++ ['0']) cs2
  | c :: _ =>
    if c.isDigit then
      let (ds, cs2) := cs1.span (·.isDigit)
      parseFracPart (sign ++ ds) cs2
    else none
  | [] => none

mutual

/-- Modelled from the platform: the value parser of `JSON.parse`.  The
fuel argument bounds nesting and member counts; the entry point supplies
more fuel than any input can consume. -/
def parseValue : Nat → List Char → Option (Json × List Char)
  | 0, _ => none
  | fuel + 1, cs =>
    match skipWs cs with
    | [] => none
    | c :: rest =>
      if c = '"' then
        (parseStringBody rest).map fun p => (Json.str ⟨p.1⟩, p.2)
      else if c = '\x7b' then
        match skipWs rest with
        | '\x7d' :: rest' => some (Json.obj [], rest')
        | other => (parseMembers fuel other).map fun p => (Json.obj p.1, p.2)
      else if c = '[' then
        match skipWs rest with
        | ']' :: rest' => some (Json.arr [], rest')
        | other => (parseElems fuel other).map fun p => (Json.arr p.1, p.2)
      else if c = 't' then
        match rest with
        | 'r' :: 'u' :: 'e' :: r => some (Json.bool true, r)
        | _ => none
      else if c = 'f' then
        match rest with
        | 'a' :: 'l' :: 's' :: 'e' :: r => some (Json.bool false, r)
        | _ => none
      else if c = 'n' then
        match rest with
        | 'u' :: 'l' :: 'l' :: r => some (Json.null, r)
        | _ => none
      else if c = '-' ∨ c.isDigit then
        (parseNumber (c :: rest)).map fun p => (Json.num ⟨p.1⟩, p.2)
      else none

/-- Parse one or more `"key": value` members and the closing brace. -/
def parseMembers : Nat → List Char → Option (List (String × Json) × List Char)
  | 0, _ => none
  | fuel + 1, cs =>
    match skipWs cs with
    | '"' :: rest =>
      match parseStringBody rest with
      | some (key, rest1) =>
        match skipWs rest1 with
        | ':' :: rest2 =>
          match parseValue fuel rest2 with
          | some (v, rest3) =>
            match skipWs rest3 with
            | ',' :: rest4 =>
              (parseMembers fuel rest4).map fun p =>
                ((⟨key⟩, v) :: p.1, p.2)
            | '\x7d' :: rest4 => some ([(⟨key⟩, v)], rest4)
            | _ => none
          | none => none
        | _ => none
      | none => none
    | _ => none

/-- Parse one or more array elements and the closing bracket. -/
def parseElems : Nat → List Char → Option (List Json × List Char)
  | 0, _ => none
  | fuel + 1, cs =>
    match parseValue fuel cs with
    | some (v, rest) =>
      match skipWs rest with
      | ',' :: rest' => (parseElems fuel rest').map fun p => (v :: p.1, p.2)
      | ']' :: rest' => some ([v], rest')
      | _ => none
    | none => none

end

/-- Modelled from the platform: `JSON.parse`; `none` is the thrown
`SyntaxError`. -/
def jsonParse (s : String) : Option Json :=
  match parseValue (s.data.length + 1) s.data with
  | some (j, rest) => if skipWs rest = [] then some j else none
  | none => none

/-- JavaScript property access on a parsed JSON value (`undefined` is
`none`); on objects the last member with the key wins, as in `JSON.parse`. -/
def getField (j : Json) (name : String) : Option Json :=
  match j with
  | Json.obj members => (members.reverse.find? (fun m => m.1 = name)).map (·.2)
  | _ => none

mutual

/-- JavaScript `ToString` of a parsed JSON value. -/
def jsToStringJson : Json → String
  | Json.null => "null"
  | Json.bool true => "true"
  | Json.bool false => "false"
  | Json.num lexeme => lexeme
  | Json.str s => s
  | Json.arr l => jsArrToString l
  | Json.obj _ => "[object Object]"

/-- JavaScript `Array.prototype.join` with `","` (`null` joins as empty). -/
def jsArrToString : List Json → String
  | [] => ""
  | [Json.null] => ""
  | [x] => jsToStringJson x
  | Json.null :: rest => "," ++ jsArrToString rest
  | x :: rest => jsToStringJson x ++ "," ++ jsArrToString rest

end

/-- JavaScript string coercion of a possibly-`undefined` value, as applied
by `atob` to its argument. -/
def jsToString : Option Json → String
  | none => "undefined"
  | some j => jsToStringJson j

/-- A hexadecimal digit character. -/
def hexDigit (n : Nat) : Char :=
  if n < 10 then Char.ofNat ('0'.toNat + n) else Char.ofNat ('a'.toNat + n - 10)

/-- Escaping of one string character by `JSON.stringify`. -/
def jsonEscapeChar (c : Char) : List Char :=
  if c = '"' then ['\\', '"']
  else if c = '\\' then ['\\', '\\']
  else if c = '\x08' then ['\\', 'b']
  else if c = '\x0c' then ['\\', 'f']
  else if c = '\n' then ['\\', 'n']
  else if c = '\x0d' then ['\\', 'r']
  else if c = '\t' then ['\\', 't']
  else if c.toNat < 0x20 then
    ['\\', 'u', '0', '0', hexDigit (c.toNat / 16), hexDigit (c.toNat % 16)]
  else [c]

/-- Serialization of a string value by `JSON.stringify`. -/
def jsonQuote (s : String) : String :=
  ⟨'"' :: s.data.flatMap jsonEscapeChar ++ ['"']⟩

/-- Characters that `JSON.stringify` leaves unescaped and that the string
parser consumes as plain content. -/
def jsonSafe (c : Char) : Prop := c ≠ '"' ∧ c ≠ '\\' ∧ 0x20 ≤ c.toNat

instance (c : Char) : Decidable (jsonSafe c) := by
  unfold jsonSafe; infer_instance

/-! ## Vault Codec (`src/lib/crypto.ts`)

`encryptData` / `decryptData` are translated line by line from the
source; the platform primitives they call are the models above. -/

/-- The `EncryptedData` interface of `src/lib/crypto.ts`: all three
fields base64-encoded. -/
structure EncryptedData where
  cipherText : String
  salt : String
  iv : String
deriving DecidableEq, Repr

/-- Serialization of an `EncryptedData` object literal by `JSON.stringify` (fields in the
source's construction order). -/
def stringifyEncryptedData (d : EncryptedData) : String :=
  "\x7b\"cipherText\":" ++ jsonQuote d.cipherText ++
    ",\"salt\":" ++ jsonQuote d.salt ++
    ",\"iv\":" ++ jsonQuote d.iv ++ "\x7d"

/-- Translation of `encryptData(data, password)` from `src/lib/crypto.ts`.  The fresh
random `salt` and `iv` drawn by `crypto.getRandomValues` are passed in
explicitly as the function's randomness. -/
def encryptData (data password : String) (salt iv : List Nat) : String :=
  let key := deriveKey password salt
  let plaintext := utf8Encode data
  let ciphertext := subtleEncrypt key iv plaintext
  stringifyEncryptedData
    { cipherText := uint8ArrayToBase64 ciphertext
      salt := uint8ArrayToBase64 salt
      iv := uint8ArrayToBase64 iv }

instance {α β : Type} [DecidableEq α] [DecidableEq β] :
    DecidableEq (Except α β) := fun x y =>
  match x, y with
  | Except.ok a, Except.ok b =>
    if h : a = b then isTrue (by rw [h]) else isFalse (by simp [h])
  | Except.error a, Except.error b =>
    if h : a = b then isTrue (by rw [h]) else isFalse (by simp [h])
  | Except.ok _, Except.error _ => isFalse (by simp)
  | Except.error _, Except.ok _ => isFalse (by simp)

/-- The failure modes of `decryptData`:

* `malformed` — `Error('Invalid encrypted data format')`, thrown when
  `JSON.parse` fails;
* `typeErr` — the uncaught `TypeError` of reading a property of `null`
  when the input parses to JSON `null`;
* `invalidChar` — the uncaught `InvalidCharacterError` thrown by `atob`
  on a field that is absent or not base64;
* `decryptionFailed` — `Error('Decryption failed: incorrect password or
  corrupted data')`, thrown when AEAD decryption fails. -/
inductive VaultError where
  | malformed : VaultError
  | typeErr : VaultError
  | invalidChar : VaultError
  | decryptionFailed : VaultError
deriving DecidableEq, Repr

/-- The `error.message` strings of the two errors `decryptData`
constructs itself. -/
def vaultErrorMessage : VaultError → String
  | VaultError.malformed => "Invalid encrypted data format"
  | VaultError.typeErr => "TypeError: cannot read properties of null"
  | VaultError.invalidChar => "InvalidCharacterError"
  | VaultError.decryptionFailed =>
      "Decryption failed: incorrect password or corrupted data"

/-- Translation of `decryptData(encryptedJson, password)` from `src/lib/crypto.ts`,
step by step: `JSON.parse` inside its own `try` (failure →
`malformed`); the three field reads and base64 decodes, outside any
`try` (a `null` parse throws `typeErr`, a bad or absent field makes
`atob` throw `invalidChar`); key derivation from the stored salt; AEAD
decryption inside the second `try` (failure → `decryptionFailed`);
UTF-8 decoding of the plaintext. -/
def decryptData (encryptedJson password : String) :
    Except VaultError String :=
  match jsonParse encryptedJson with
  | none => Except.error VaultError.malformed
  | some encryptedData =>
    match encryptedData with
    | Json.null => Except.error VaultError.typeErr
    | j =>
      match base64ToUint8Array (jsToString (getField j "cipherText")) with
      | none => Except.error VaultError.invalidChar
      | some ciphertextArray =>
        match base64ToUint8Array (jsToString (getField j "salt")) with
        | none => Except.error VaultError.invalidChar
        | some salt =>
          match base64ToUint8Array (jsToString (getField j "iv")) with
          | none => Except.error VaultError.invalidChar
          | some iv =>
            let key := deriveKey password salt
            match subtleDecrypt key iv ciphertextArray with
            | none => Except.error VaultError.decryptionFailed
            | some plaintext => Except.ok (utf8Decode plaintext)

/-! ## Encrypted Store Adapter and Session State (`src/background/index.ts`)

The handlers below are translated from `src/background/index.ts`.  The
storage module they import (`src/lib/storage.ts`) is not part of the
sources; it is modelled from the spec.  External collaborators (the BIP-39
mnemonic generator, `crypto.getRandomValues`, the Ark SDK `Wallet.create`
and `getBalance`) are oracles supplied per invocation in an `Env`. -/

/-- The persisted network preference. -/
inductive Network where
  | signet : Network
  | mainnet : Network
deriving DecidableEq, Repr

/-- Modelled from the spec: the Encrypted Store Adapter state
(`src/lib/storage.ts` is missing from the sources; spec §4.2 and §6 define
it as durable key-value persistence of exactly the `encrypted_wallet` and
`network` records).  Platform storage faults are outside the model. -/
structure StoreState where
  encryptedWallet : Option String
  network : Option Network
deriving DecidableEq, Repr

/-- Modelled from the spec: `saveEncryptedWallet` writes the blob record. -/
def saveEncryptedWallet (st : StoreState) (blob : String) : StoreState :=
  { st with encryptedWallet := some blob }

/-- Modelled from the spec: `loadEncryptedWallet` reads the blob record. -/
def loadEncryptedWallet (st : StoreState) : Option String :=
  st.encryptedWallet

/-- Modelled from the spec: `hasWallet() -> bool`, true iff the blob
record is present. -/
def hasWallet (st : StoreState) : Bool :=
  st.encryptedWallet.isSome

/-- Modelled from the spec: `saveNetwork` writes the preference record. -/
def saveNetwork (st : StoreState) (n : Network) : StoreState :=
  { st with network := some n }

/-- Modelled from the spec: `loadNetwork` reads the preference, defaulting
to `signet` when absent. -/
def loadNetwork (st : StoreState) : Network :=
  st.network.getD Network.signet

/-- The background context's mutable state: the two session cells
(`sessionMnemonic`, `walletInstance`) and the store.  The privileged SDK
handle is opaque (`Unit`). -/
structure BgState where
  sessionMnemonic : Option String
  walletInstance : Option Unit
  store : StoreState
deriving DecidableEq, Repr

/-- Per-invocation oracle for the external collaborators: the generated
mnemonic, the random salt and iv drawn by `crypto.getRandomValues`, the
`Wallet.create` outcome (`none` = it threw), and the
`walletInstance.getBalance()` outcome (`Except.error` = it threw, with
the error message). -/
structure Env where
  mnemonic : String
  salt : List Nat
  iv : List Nat
  sdkCreate : Option Unit
  balanceResult : Except String (Nat × Nat)
deriving Repr

/-- The possible `data` payloads of the handlers' responses. -/
inductive RData where
  | ok : RData
  | status (initialized locked : Bool) : RData
  | balance (onchain offchain : Nat) : RData
  | network (n : Network) : RData
deriving DecidableEq, Repr

/-- The `Response<T>` envelope of `src/types/messages.ts`. -/
structure ResponseW where
  success : Bool
  data : Option RData
  error : Option String
deriving DecidableEq, Repr

/-- The tagged message union handled by the background listener, plus a
defensive `Unknown` constructor for out-of-contract runtime values hitting
the listener's `default` branch. -/
inductive Message where
  | GenerateWallet (password : String) : Message
  | GetWalletStatus : Message
  | UnlockWallet (password : String) : Message
  | LockWallet : Message
  | GetBalance : Message
  | GetNetwork : Message
  | SetNetwork (network : Network) : Message
  | Unknown (typeTag : String) : Message
deriving DecidableEq, Repr

/-- Translation of `initSdk(mnemonic, network)` from `src/background/index.ts`: the key
derivation and `Wallet.create` calls are external; the outcome comes from
the environment.  On success the handle is stored; on failure
`walletInstance` is set to `null` and the error is rethrown. -/
def initSdk (st : BgState) (env : Env) (_mnemonic : String)
    (_network : Network) : BgState × Except Unit Unit :=
  match env.sdkCreate with
  | some h => ({ st with walletInstance := some h }, Except.ok ())
  | none => ({ st with walletInstance := none }, Except.error ())

/-- Translation of `handleGenerateWallet` from `src/background/index.ts`: generate a
fresh mnemonic, encrypt it with the supplied password, save the blob. -/
def handleGenerateWallet (st : BgState) (env : Env) (password : String) :
    BgState × ResponseW :=
  let seed := env.mnemonic
  let encryptedData := encryptData seed password env.salt env.iv
  ({ st with store := saveEncryptedWallet st.store encryptedData },
   { success := true, data := some RData.ok, error := none })

/-- Translation of `handleGetWalletStatus` from `src/background/index.ts`. -/
def handleGetWalletStatus (st : BgState) : BgState × ResponseW :=
  (st,
   { success := true
     data := some (RData.status (hasWallet st.store) st.sessionMnemonic.isNone)
     error := none })

/-- Translation of `handleUnlockWallet` from `src/background/index.ts`: load the blob
(absence → "No wallet found"), decrypt it (failure → "Incorrect
password"), store the mnemonic in the session, then attempt `initSdk`,
whose failure is caught and does not fail the unlock. -/
def handleUnlockWallet (st : BgState) (env : Env) (password : String) :
    BgState × ResponseW :=
  match loadEncryptedWallet st.store with
  | none =>
    (st, { success := false, data := none, error := some "No wallet found" })
  | some encrypted =>
    match decryptData encrypted password with
    | Except.error _ =>
      (st,
       { success := false, data := none, error := some "Incorrect password" })
    | Except.ok mnemonic =>
      let st1 := { st with sessionMnemonic := some mnemonic }
      let network := loadNetwork st1.store
      ((initSdk st1 env mnemonic network).1,
       { success := true, data := some RData.ok, error := none })

/-- Translation of `handleLockWallet` from `src/background/index.ts`: clear both session
cells, always succeed. -/
def handleLockWallet (st : BgState) : BgState × ResponseW :=
  ({ st with sessionMnemonic := none, walletInstance := none },
   { success := true, data := some RData.ok, error := none })

/-- Whether `sub` occurs contiguously inside a character list. -/
def listIsInfixOf (sub : List Char) : List Char → Bool
  | [] => sub.isEmpty
  | c :: rest => sub.isPrefixOf (c :: rest) || listIsInfixOf sub rest

/-- JavaScript `String.prototype.includes`. -/
def strIncludes (s sub : String) : Bool :=
  listIsInfixOf sub.data s.data

/-- Translation of `handleGetBalance` from `src/background/index.ts`: fail when no
handle is present; otherwise one SDK `getBalance()` call, whose thrown
errors are mapped to a connection message when they mention network
conditions and passed through otherwise. -/
def handleGetBalance (st : BgState) (env : Env) : BgState × ResponseW :=
  match st.walletInstance with
  | none =>
    (st,
     { success := false, data := none, error := some "Wallet not initialized" })
  | some _ =>
    match env.balanceResult with
    | Except.ok b =>
      (st,
       { success := true, data := some (RData.balance b.1 b.2), error := none })
    | Except.error msg =>
      if strIncludes msg "network" || strIncludes msg "fetch" ||
          strIncludes msg "connection" || strIncludes msg "Failed to fetch" then
        (st,
         { success := false, data := none
           error := some
             "Unable to connect to Ark Service Provider. Please check your connection." })
      else
        (st, { success := false, data := none, error := some msg })

/-- Translation of `handleGetNetwork` from `src/background/index.ts`. -/
def handleGetNetwork (st : BgState) : BgState × ResponseW :=
  (st,
   { success := true
     data := some (RData.network (loadNetwork st.store))
     error := none })

/-- Translation of `handleSetNetwork` from `src/background/index.ts`: persist the
preference; when a session mnemonic is held, re-attempt `initSdk`, whose
failure is caught and does not fail the preference change. -/
def handleSetNetwork (st : BgState) (env : Env) (network : Network) :
    BgState × ResponseW :=
  let st1 := { st with store := saveNetwork st.store network }
  match st1.sessionMnemonic with
  | some mnemonic =>
    ((initSdk st1 env mnemonic network).1,
     { success := true, data := some RData.ok, error := none })
  | none =>
    (st1, { success := true, data := some RData.ok, error := none })

/-- The `chrome.runtime.onMessage` listener's switch from
`src/background/index.ts`: route each message to its handler; the
`default` branch answers unknown tags with a failure envelope naming the
tag. -/
def dispatch (st : BgState) (env : Env) : Message → BgState × ResponseW
  | Message.GenerateWallet pw => handleGenerateWallet st env pw
  | Message.GetWalletStatus => handleGetWalletStatus st
  | Message.UnlockWallet pw => handleUnlockWallet st env pw
  | Message.LockWallet => handleLockWallet st
  | Message.GetBalance => handleGetBalance st env
  | Message.GetNetwork => handleGetNetwork st
  | Message.SetNetwork n => handleSetNetwork st env n
  | Message.Unknown t =>
    (st,
     { success := false, data := none
       error := some ("Unknown message type: " ++ t) })

/-- One invocation arriving at the listener: a message together with the
collaborator outcomes of processing it. -/
structure Invocation where
  env : Env
  msg : Message
deriving Repr

/-- The state after a sequence of invocations. -/
def runTrace (st : BgState) (trace : List Invocation) : BgState :=
  trace.foldl (fun s inv => (dispatch s inv.env inv.msg).1) st

/-- The state of a freshly started service worker: both session cells
empty (`let sessionMnemonic = null`, `let walletInstance = null`),
arbitrary persisted store. -/
def initialBgState (store : StoreState) : BgState :=
  { sessionMnemonic := none, walletInstance := none, store := store }

/-! ## Session-state lemmas -/

/-- The session invariant: a privileged handle exists only while the
session secret is held. -/
def sessionInv (st : BgState) : Prop :=
  st.walletInstance.isSome → st.sessionMnemonic.isSome

/-! ## Claims -/

/-- A vault blob whose ciphertext was corrupted after encryption: the
blob of `encryptData "seed" "pw1" [1, 2] [3]` with its first ciphertext
byte overwritten by 255. -/
def corruptedVaultBlob : String :=
  stringifyEncryptedData
    { cipherText := uint8ArrayToBase64 (255 :: (subtleEncrypt
        (deriveKey "pw1" [1, 2]) [3] (utf8Encode "seed")).tail)
      salt := uint8ArrayToBase64 [1, 2]
      iv := uint8ArrayToBase64 [3] }

/-- A store holding a concrete encrypted wallet, for witnesses. -/
def storeW : StoreState := ⟨some (encryptData "m" "p" [] []), none⟩

/-- A collaborator environment whose SDK calls succeed, for witnesses. -/
def envW : Env := ⟨"m", [], [], some (), Except.ok (0, 0)⟩

/-- A collaborator environment whose `Wallet.create` throws, for
witnesses. -/
def envWFail : Env := ⟨"m", [], [], none, Except.ok (0, 0)⟩

/-- An unlocked background state with a live handle, for the balance
scenarios. -/
def unlockedBg : BgState := ⟨some "mnemonic words", some (), ⟨some "blob", none⟩⟩

/-- A collaborator environment whose single `getBalance()` call throws
the off-chain not-found fault. -/
def offchainFailEnv : Env := ⟨"m", [], [], some (), Except.error "vtxo set not found"⟩

/-! ## Theorems -/

/-- The fuel is irrelevant as long as it covers the number. -/
theorem encNatAux_irrel (n : Nat) : ∀ f g, n ≤ f → n ≤ g →
    encNatAux f n = encNatAux g n := by
  induction n using Nat.strong_induction_on with
  | _ n ih =>
    intro f g hf hg
    by_cases hn : n < 128
    · match f, g with
      | 0, 0 => rfl
      | 0, g + 1 =>
        have hn0 : n = 0 := by omega
        subst hn0
        simp [encNatAux]
      | f + 1, 0 =>
        have hn0 : n = 0 := by omega
        subst hn0
        simp [encNatAux]
      | f + 1, g + 1 => simp [encNatAux, hn]
    · match f, g with
      | 0, _ => exact absurd hf (by omega)
      | f + 1, 0 => exact absurd hg (by omega)
      | f + 1, g + 1 =>
        simp only [encNatAux, if_neg hn]
        rw [ih (n / 128) (Nat.div_lt_self (by omega) (by omega)) f g
          (by omega) (by omega)]

/-- One-step unfolding of `encNat`. -/
theorem encNat_unfold (n : Nat) :
    encNat n = if n < 128 then [n] else (n % 128 + 128) :: encNat (n / 128) := by
  by_cases hn : n < 128
  · rw [if_pos hn, encNat]
    match n, hn with
    | 0, _ => rfl
    | n + 1, hn => simp [encNatAux, hn]
  · obtain ⟨k, rfl⟩ : ∃ k, n = k + 1 := ⟨n - 1, by omega⟩
    rw [if_neg hn, encNat, encNat]
    simp only [encNatAux, if_neg hn]
    rw [encNatAux_irrel ((k + 1) / 128) k ((k + 1) / 128) (by omega)
      (Nat.le_refl _)]

/-- The output of `encNat` is byte-valued. -/
theorem encNat_bytes (n : Nat) : bytesOk (encNat n) := by
  induction n using Nat.strong_induction_on with
  | _ n ih =>
    rw [encNat_unfold]
    split
    · intro b hb; simp at hb; omega
    · intro b hb
      simp only [List.mem_cons] at hb
      rcases hb with rfl | hb
      · omega
      · exact ih (n / 128) (Nat.div_lt_self (by omega) (by omega)) b hb

/-- Prefix decodability of `encNat`: an `encNat` block at the head of a byte
stream determines the encoded number and the remainder. -/
theorem encNat_prefix (n : Nat) :
    ∀ m a b, encNat n ++ a = encNat m ++ b → n = m ∧ a = b := by
  induction n using Nat.strong_induction_on with
  | _ n ih =>
    intro m a b h
    rw [encNat_unfold n, encNat_unfold m] at h
    by_cases hn : n < 128 <;> by_cases hm : m < 128 <;>
      simp only [hn, hm, if_true, if_false, if_pos, if_neg, not_false_iff] at h
    · simp only [List.cons_append, List.nil_append, List.cons.injEq] at h
      exact ⟨h.1, h.2⟩
    · simp only [List.cons_append, List.nil_append, List.cons.injEq] at h
      omega
    · simp only [List.cons_append, List.nil_append, List.cons.injEq] at h
      omega
    · simp only [List.cons_append, List.cons.injEq] at h
      obtain ⟨hhead, htail⟩ := h
      obtain ⟨hdiv, hab⟩ :=
        ih (n / 128) (Nat.div_lt_self (by omega) (by omega)) (m / 128) a b htail
      refine ⟨?_, hab⟩
      omega

/-- Concatenated element-wise `encNat` blocks are prefix-decodable once the
element count is known. -/
theorem encCat_prefix (xs : List Nat) :
    ∀ ys a b, xs.length = ys.length →
      (xs.flatMap encNat) ++ a = (ys.flatMap encNat) ++ b → xs = ys ∧ a = b := by
  induction xs with
  | nil =>
    intro ys a b hlen h
    cases ys with
    | nil => simpa using h
    | cons y ys => simp at hlen
  | cons x xs ihx =>
    intro ys a b hlen h
    cases ys with
    | nil => simp at hlen
    | cons y ys =>
      simp only [List.flatMap_cons, List.append_assoc] at h
      obtain ⟨hxy, htail⟩ := encNat_prefix x y _ _ h
      obtain ⟨hxs, hab⟩ := ihx ys a b (by simpa using hlen) htail
      exact ⟨by rw [hxy, hxs], hab⟩

/-- The output of `encList` is byte-valued. -/
theorem encList_bytes (xs : List Nat) : bytesOk (encList xs) := by
  intro b hb
  simp only [encList, List.mem_append, List.mem_flatMap] at hb
  rcases hb with hb | ⟨x, _, hb⟩
  · exact encNat_bytes _ b hb
  · exact encNat_bytes _ b hb

/-- Prefix decodability of `encList`. -/
theorem encList_prefix (xs ys : List Nat) (a b : List Nat)
    (h : encList xs ++ a = encList ys ++ b) : xs = ys ∧ a = b := by
  simp only [encList, List.append_assoc] at h
  obtain ⟨hlen, htail⟩ := encNat_prefix xs.length ys.length _ _ h
  exact encCat_prefix xs ys a b hlen htail

/-- Characters have injective scalar values. -/
theorem char_toNat_inj {c d : Char} (h : c.toNat = d.toNat) : c = d :=
  StrictMono.injective (f := Char.toNat) (fun _ _ hlt => hlt) h

/-- The output of `encStr` is byte-valued. -/
theorem encStr_bytes (s : String) : bytesOk (encStr s) := encList_bytes _

/-- Prefix decodability of `encStr`. -/
theorem encStr_prefix (s t : String) (a b : List Nat)
    (h : encStr s ++ a = encStr t ++ b) : s = t ∧ a = b := by
  obtain ⟨hmap, hab⟩ := encList_prefix _ _ _ _ h
  refine ⟨?_, hab⟩
  have hdata : s.data = t.data := by
    have hinj : Function.Injective Char.toNat := fun _ _ hc => char_toNat_inj hc
    exact List.map_injective_iff.mpr hinj hmap
  cases s; cases t; exact congrArg String.mk hdata

/-- The AEAD header is prefix-decodable: it determines key, iv, remainder. -/
theorem aeadHeader_prefix (k1 k2 : DerivedKey) (iv1 iv2 a b : List Nat)
    (h : aeadHeader k1 iv1 ++ a = aeadHeader k2 iv2 ++ b) :
    k1 = k2 ∧ iv1 = iv2 ∧ a = b := by
  simp only [aeadHeader, List.append_assoc] at h
  obtain ⟨hpw, h⟩ := encStr_prefix _ _ _ _ h
  obtain ⟨hsalt, h⟩ := encList_prefix _ _ _ _ h
  obtain ⟨hiv, hab⟩ := encList_prefix _ _ _ _ h
  cases k1; cases k2
  simp_all

/-- Ideal AEAD, round trip: decryption under the encrypting key and iv
returns the plaintext. -/
theorem subtleDecrypt_subtleEncrypt (k : DerivedKey) (iv pt : List Nat) :
    subtleDecrypt k iv (subtleEncrypt k iv pt) = some pt := by
  simp only [subtleDecrypt, subtleEncrypt]
  rw [if_pos, List.drop_left]
  exact List.isPrefixOf_iff_prefix.mpr (List.prefix_append _ _)

/-- Ideal AEAD, authentication: decryption under a different key fails. -/
theorem subtleDecrypt_wrong_key (k k' : DerivedKey) (iv pt : List Nat)
    (hne : k' ≠ k) : subtleDecrypt k' iv (subtleEncrypt k iv pt) = none := by
  simp only [subtleDecrypt, subtleEncrypt]
  rw [if_neg]
  intro hpre
  obtain ⟨t, ht⟩ := List.isPrefixOf_iff_prefix.mp hpre
  obtain ⟨hk, -, -⟩ := aeadHeader_prefix k' k iv iv t pt ht
  exact hne hk

/-- Ciphertexts under different keys or ivs differ (ideal cipher). -/
theorem subtleEncrypt_inj_key (k k' : DerivedKey) (iv iv' pt : List Nat)
    (h : subtleEncrypt k iv pt = subtleEncrypt k' iv' pt) : k = k' ∧ iv = iv' := by
  obtain ⟨hk, hiv, -⟩ := aeadHeader_prefix k k' iv iv' pt pt h
  exact ⟨hk, hiv⟩

/-- Idealized ciphertexts are byte-valued when the plaintext is. -/
theorem subtleEncrypt_bytes (k : DerivedKey) (iv pt : List Nat)
    (hpt : bytesOk pt) : bytesOk (subtleEncrypt k iv pt) := by
  intro b hb
  simp only [subtleEncrypt, aeadHeader, List.append_assoc, List.mem_append] at hb
  rcases hb with hb | hb | hb | hb
  · exact encStr_bytes _ b hb
  · exact encList_bytes _ b hb
  · exact encList_bytes _ b hb
  · exact hpt b hb

/-- All emitted 6-bit values are below 64 when the input is byte-valued. -/
theorem b64Vals_lt (bs : List Nat) (h : bytesOk bs) :
    ∀ v ∈ b64Vals bs, v < 64 := by
  match bs with
  | [] => intro v hv; simp [b64Vals] at hv
  | [b0] =>
    have hb0 := h b0 (by simp)
    intro v hv; simp [b64Vals] at hv; omega
  | [b0, b1] =>
    have hb0 := h b0 (by simp)
    have hb1 := h b1 (by simp)
    intro v hv; simp [b64Vals] at hv; omega
  | b0 :: b1 :: b2 :: rest =>
    have hb0 := h b0 (by simp)
    have hb1 := h b1 (by simp)
    have hb2 := h b2 (by simp)
    have ih := b64Vals_lt rest (fun b hb => h b (by simp [hb]))
    intro v hv
    simp only [b64Vals, List.mem_cons] at hv
    rcases hv with rfl | rfl | rfl | rfl | hv
    · omega
    · omega
    · omega
    · omega
    · exact ih v hv

/-- Decoding the emitted values recovers the bytes. -/
theorem b64DecodeVals_b64Vals (bs : List Nat) (h : bytesOk bs) :
    b64DecodeVals (b64Vals bs) = some bs := by
  match bs with
  | [] => rfl
  | [b0] =>
    have hb0 := h b0 (by simp)
    simp only [b64Vals, b64DecodeVals, Option.some.injEq, List.cons.injEq,
      and_true]
    omega
  | [b0, b1] =>
    have hb0 := h b0 (by simp)
    have hb1 := h b1 (by simp)
    simp only [b64Vals, b64DecodeVals, Option.some.injEq, List.cons.injEq,
      and_true]
    constructor
    · omega
    · omega
  | b0 :: b1 :: b2 :: rest =>
    have hb0 := h b0 (by simp)
    have hb1 := h b1 (by simp)
    have hb2 := h b2 (by simp)
    have ih := b64DecodeVals_b64Vals rest (fun b hb => h b (by simp [hb]))
    simp only [b64Vals, b64DecodeVals, ih, Option.bind_eq_bind,
      Option.some_bind, Option.pure_def, Option.some.injEq, List.cons.injEq,
      and_true]
    omega

/-- Looking up the alphabet character of a value below 64 recovers it. -/
theorem charToVal_alpha : ∀ v, v < 64 → charToVal (alpha v) = some v := by
  decide

/-- Alphabet characters are not padding. -/
theorem alpha_ne_eq : ∀ v, v < 64 → alpha v ≠ '=' := by decide

/-- Alphabet characters are not ASCII whitespace. -/
theorem alpha_not_ws : ∀ v, v < 64 → isB64Ws (alpha v) = false := by decide

/-- Looking up all alphabet characters of values below 64 recovers them. -/
theorem charsToVals_alpha (vals : List Nat) (h : ∀ v ∈ vals, v < 64) :
    charsToVals (vals.map alpha) = some vals := by
  induction vals with
  | nil => rfl
  | cons v vs ih =>
    simp [charsToVals, charToVal_alpha v (h v (by simp)),
      ih (fun w hw => h w (by simp [hw]))]

/-- Emitted values plus padding always have length a multiple of four. -/
theorem b64Vals_length (bs : List Nat) :
    ((b64Vals bs).length + b64Pad bs) % 4 = 0 := by
  match bs with
  | [] => rfl
  | [_] => simp [b64Vals, b64Pad]
  | [_, _] => simp [b64Vals, b64Pad]
  | b0 :: b1 :: b2 :: rest =>
    have ih := b64Vals_length rest
    simp only [b64Vals, b64Pad, List.length_cons]
    omega

/-- Padding never exceeds two characters. -/
theorem b64Pad_le (bs : List Nat) : b64Pad bs ≤ 2 := by
  match bs with
  | [] => exact Nat.zero_le _
  | [_] => simp [b64Pad]
  | [_, _] => simp [b64Pad]
  | _ :: _ :: _ :: rest => exact b64Pad_le rest

/-- Stripping up to two trailing `=` from a padding-free list followed by
padding recovers the list. -/
theorem dropTrailingEq_append_replicate (l : List Char) (p : Nat)
    (hp : p ≤ 2) (hl : '=' ∉ l) :
    dropTrailingEq (l ++ List.replicate p '=') = l := by
  have htk2 : l.reverse.take 2 ≠ ['=', '='] := by
    intro hk
    apply hl
    apply List.mem_reverse.mp
    apply List.take_subset 2
    rw [hk]; simp
  have htk1 : l.reverse.take 1 ≠ ['='] := by
    intro hk
    apply hl
    apply List.mem_reverse.mp
    apply List.take_subset 1
    rw [hk]; simp
  interval_cases p
  · simp [dropTrailingEq, htk2, htk1]
  · have hrev : (l ++ List.replicate 1 '=').reverse = '=' :: l.reverse := by
      simp
    simp only [dropTrailingEq, hrev]
    have hcond2 : ('=' :: l.reverse).take 2 ≠ ['=', '='] := by
      cases hlr : l.reverse with
      | nil => simp
      | cons c r =>
        have hc : c ≠ '=' := by
          intro hc
          apply hl
          apply List.mem_reverse.mp
          rw [hlr, hc]; simp
        simp [hc]
    rw [if_neg hcond2, if_pos (by simp)]
    simp
  · have hrev : (l ++ List.replicate 2 '=').reverse = '=' :: '=' :: l.reverse := by
      simp
    simp only [dropTrailingEq, hrev]
    rw [if_pos (by simp)]
    simp

/-- Round trip of the base64 packaging: decoding an encoded byte list
recovers it. -/
theorem base64_roundtrip (bs : List Nat) (h : bytesOk bs) :
    base64ToUint8Array (uint8ArrayToBase64 bs) = some bs := by
  have hvals := b64Vals_lt bs h
  have hne : '=' ∉ (b64Vals bs).map alpha := by
    intro hm
    obtain ⟨v, hv, he⟩ := List.mem_map.mp hm
    exact alpha_ne_eq v (hvals v hv) he
  have hdata : (uint8ArrayToBase64 bs).data =
      (b64Vals bs).map alpha ++ List.replicate (b64Pad bs) '=' := rfl
  have hfilter : ((b64Vals bs).map alpha ++
      List.replicate (b64Pad bs) '=').filter (fun c => !isB64Ws c) =
      (b64Vals bs).map alpha ++ List.replicate (b64Pad bs) '=' := by
    rw [List.filter_eq_self]
    intro a ha
    rcases List.mem_append.mp ha with ha | ha
    · obtain ⟨v, hv, rfl⟩ := List.mem_map.mp ha
      simp [alpha_not_ws v (hvals v hv)]
    · have : a = '=' := List.eq_of_mem_replicate ha
      subst this
      decide
  have hlen : ((b64Vals bs).map alpha ++
      List.replicate (b64Pad bs) '=').length % 4 = 0 := by
    simpa using b64Vals_length bs
  have hstrip : b64StripPad ((b64Vals bs).map alpha ++
      List.replicate (b64Pad bs) '=') = (b64Vals bs).map alpha := by
    rw [b64StripPad, if_pos hlen]
    exact dropTrailingEq_append_replicate _ _ (b64Pad_le bs) hne
  have hnot1 : ¬ ((b64Vals bs).map alpha).length % 4 = 1 := by
    have h4 := b64Vals_length bs
    have hple := b64Pad_le bs
    simp only [List.length_map]
    omega
  simp only [base64ToUint8Array, hdata, hfilter, hstrip, if_neg hnot1,
    charsToVals_alpha _ hvals, Option.some_bind]
  exact b64DecodeVals_b64Vals bs h

/-- The scalar value of a character is valid (not a surrogate, in range). -/
theorem char_valid_bounds (c : Char) :
    c.toNat < 0xd800 ∨ (0xdfff < c.toNat ∧ c.toNat < 0x110000) := by
  have hval := c.valid
  simp only [UInt32.isValidChar, Nat.isValidChar] at hval
  simpa [Char.toNat] using hval

/-- UTF-8 bytes are byte-valued. -/
theorem utf8EncodeChar_bytes (c : Char) : bytesOk (utf8EncodeChar c) := by
  have hv := char_valid_bounds c
  intro b hb
  simp only [utf8EncodeChar] at hb
  split at hb <;> [skip; split at hb] <;> [skip; skip; split at hb] <;>
    simp only [List.mem_cons, List.not_mem_nil, or_false] at hb <;>
    omega

/-- UTF-8 encoded strings are byte-valued. -/
theorem utf8Encode_bytes (s : String) : bytesOk (utf8Encode s) := by
  intro b hb
  simp only [utf8Encode, List.mem_flatMap] at hb
  obtain ⟨c, -, hb⟩ := hb
  exact utf8EncodeChar_bytes c b hb

/-- Step: an ASCII byte in the ground state emits its character. -/
theorem utf8SM_ascii (cp lo hi b : Nat) (rest : List Nat) (h : b < 0x80) :
    utf8DecodeSM cp 0 lo hi (b :: rest) =
      Char.ofNat b :: utf8DecodeSM 0 0 0x80 0xBF rest := by
  rw [utf8DecodeSM, if_pos rfl, if_pos h]

/-- Step: a two-byte lead enters the one-continuation state. -/
theorem utf8SM_lead2 (cp lo hi b : Nat) (rest : List Nat)
    (h : 0xC2 ≤ b ∧ b ≤ 0xDF) :
    utf8DecodeSM cp 0 lo hi (b :: rest) =
      utf8DecodeSM (b - 0xC0) 1 0x80 0xBF rest := by
  rw [utf8DecodeSM, if_pos rfl, if_neg (by omega), if_pos h]

/-- Step: the `E0` lead raises the next lower boundary to `A0`. -/
theorem utf8SM_leadE0 (cp lo hi : Nat) (rest : List Nat) :
    utf8DecodeSM cp 0 lo hi (0xE0 :: rest) =
      utf8DecodeSM 0 2 0xA0 0xBF rest := by
  rw [utf8DecodeSM, if_pos rfl, if_neg (by omega), if_neg (by omega),
    if_pos rfl]

/-- Step: the `ED` lead lowers the next upper boundary to `9F`
(excluding surrogates). -/
theorem utf8SM_leadED (cp lo hi : Nat) (rest : List Nat) :
    utf8DecodeSM cp 0 lo hi (0xED :: rest) =
      utf8DecodeSM 13 2 0x80 0x9F rest := by
  rw [utf8DecodeSM, if_pos rfl, if_neg (by omega), if_neg (by omega),
    if_neg (by omega), if_pos rfl]

/-- Step: a generic three-byte lead enters the two-continuation state. -/
theorem utf8SM_lead3 (cp lo hi b : Nat) (rest : List Nat)
    (h : 0xE1 ≤ b ∧ b ≤ 0xEF) (hne : b ≠ 0xED) :
    utf8DecodeSM cp 0 lo hi (b :: rest) =
      utf8DecodeSM (b - 0xE0) 2 0x80 0xBF rest := by
  rw [utf8DecodeSM, if_pos rfl, if_neg (by omega), if_neg (by omega),
    if_neg (by omega), if_neg hne, if_pos h]

/-- Step: the `F0` lead raises the next lower boundary to `90`. -/
theorem utf8SM_leadF0 (cp lo hi : Nat) (rest : List Nat) :
    utf8DecodeSM cp 0 lo hi (0xF0 :: rest) =
      utf8DecodeSM 0 3 0x90 0xBF rest := by
  rw [utf8DecodeSM, if_pos rfl, if_neg (by omega), if_neg (by omega),
    if_neg (by omega), if_neg (by omega), if_neg (by omega), if_pos rfl]

/-- Step: the `F4` lead lowers the next upper boundary to `8F`
(excluding values above U+10FFFF). -/
theorem utf8SM_leadF4 (cp lo hi : Nat) (rest : List Nat) :
    utf8DecodeSM cp 0 lo hi (0xF4 :: rest) =
      utf8DecodeSM 4 3 0x80 0x8F rest := by
  rw [utf8DecodeSM, if_pos rfl, if_neg (by omega), if_neg (by omega),
    if_neg (by omega), if_neg (by omega), if_neg (by omega),
    if_neg (by omega), if_pos rfl]

/-- Step: a generic four-byte lead enters the three-continuation state. -/
theorem utf8SM_lead4 (cp lo hi b : Nat) (rest : List Nat)
    (h : 0xF1 ≤ b ∧ b ≤ 0xF3) :
    utf8DecodeSM cp 0 lo hi (b :: rest) =
      utf8DecodeSM (b - 0xF0) 3 0x80 0xBF rest := by
  rw [utf8DecodeSM, if_pos rfl, if_neg (by omega), if_neg (by omega),
    if_neg (by omega), if_neg (by omega), if_neg (by omega),
    if_neg (by omega), if_neg (by omega), if_pos h]

/-- Step: an in-bounds continuation byte with more to come accumulates. -/
theorem utf8SM_cont (cp needed lo hi b : Nat) (rest : List Nat)
    (h : lo ≤ b ∧ b ≤ hi) (hn : 2 ≤ needed) :
    utf8DecodeSM cp needed lo hi (b :: rest) =
      utf8DecodeSM (cp * 64 + (b - 0x80)) (needed - 1) 0x80 0xBF rest := by
  rw [utf8DecodeSM, if_neg (by omega), if_pos h, if_neg (by omega)]

/-- Step: the final in-bounds continuation byte emits the character. -/
theorem utf8SM_fin (cp lo hi b : Nat) (rest : List Nat)
    (h : lo ≤ b ∧ b ≤ hi) :
    utf8DecodeSM cp 1 lo hi (b :: rest) =
      Char.ofNat (cp * 64 + (b - 0x80)) :: utf8DecodeSM 0 0 0x80 0xBF rest := by
  rw [utf8DecodeSM, if_neg (by omega), if_pos h, if_pos rfl]

/-- Decoding a character's UTF-8 bytes at the head of a stream yields the
character and continues with the rest in the ground state. -/
theorem utf8DecodeSM_encodeChar (c : Char) (rest : List Nat) :
    utf8DecodeSM 0 0 0x80 0xBF (utf8EncodeChar c ++ rest) =
      c :: utf8DecodeSM 0 0 0x80 0xBF rest := by
  have hv := char_valid_bounds c
  by_cases h1 : c.toNat < 0x80
  · simp only [utf8EncodeChar, if_pos h1, List.cons_append, List.nil_append]
    rw [utf8SM_ascii _ _ _ _ _ h1, Char.ofNat_toNat]
  · by_cases h2 : c.toNat < 0x800
    · simp only [utf8EncodeChar, if_neg h1, if_pos h2, List.cons_append,
        List.nil_append]
      rw [utf8SM_lead2 _ _ _ _ _ ⟨by omega, by omega⟩,
        utf8SM_fin _ _ _ _ _ ⟨by omega, by omega⟩]
      have harith : (0xC0 + c.toNat / 64 - 0xC0) * 64 +
          (0x80 + c.toNat % 64 - 0x80) = c.toNat := by omega
      rw [harith, Char.ofNat_toNat]
    · by_cases h3 : c.toNat < 0x10000
      · simp only [utf8EncodeChar, if_neg h1, if_neg h2, if_pos h3,
          List.cons_append, List.nil_append]
        by_cases hE0 : c.toNat < 0x1000
        · have hb0 : 0xE0 + c.toNat / 4096 = 0xE0 := by omega
          rw [hb0, utf8SM_leadE0,
            utf8SM_cont _ _ _ _ _ _ ⟨by omega, by omega⟩ (by omega),
            utf8SM_fin _ _ _ _ _ ⟨by omega, by omega⟩]
          have harith : (0 * 64 + (0x80 + c.toNat / 64 % 64 - 0x80)) * 64 +
              (0x80 + c.toNat % 64 - 0x80) = c.toNat := by omega
          rw [harith, Char.ofNat_toNat]
        · by_cases hED : c.toNat / 4096 = 13
          · have hsur : c.toNat < 0xD800 := by omega
            have hb0 : 0xE0 + c.toNat / 4096 = 0xED := by omega
            rw [hb0, utf8SM_leadED,
              utf8SM_cont _ _ _ _ _ _ ⟨by omega, by omega⟩ (by omega),
              utf8SM_fin _ _ _ _ _ ⟨by omega, by omega⟩]
            have harith : (13 * 64 + (0x80 + c.toNat / 64 % 64 - 0x80)) * 64 +
                (0x80 + c.toNat % 64 - 0x80) = c.toNat := by omega
            rw [harith, Char.ofNat_toNat]
          · rw [utf8SM_lead3 _ _ _ _ _ ⟨by omega, by omega⟩ (by omega),
              utf8SM_cont _ _ _ _ _ _ ⟨by omega, by omega⟩ (by omega),
              utf8SM_fin _ _ _ _ _ ⟨by omega, by omega⟩]
            have harith : ((0xE0 + c.toNat / 4096 - 0xE0) * 64 +
                (0x80 + c.toNat / 64 % 64 - 0x80)) * 64 +
                (0x80 + c.toNat % 64 - 0x80) = c.toNat := by omega
            rw [harith, Char.ofNat_toNat]
      · simp only [utf8EncodeChar, if_neg h1, if_neg h2, if_neg h3,
          List.cons_append, List.nil_append]
        have hmax : c.toNat < 0x110000 := by omega
        by_cases hF0 : c.toNat < 0x40000
        · have hb0 : 0xF0 + c.toNat / 262144 = 0xF0 := by omega
          rw [hb0, utf8SM_leadF0,
            utf8SM_cont _ _ _ _ _ _ ⟨by omega, by omega⟩ (by omega),
            utf8SM_cont _ _ _ _ _ _ ⟨by omega, by omega⟩ (by omega),
            utf8SM_fin _ _ _ _ _ ⟨by omega, by omega⟩]
          have harith : ((0 * 64 + (0x80 + c.toNat / 4096 % 64 - 0x80)) * 64 +
              (0x80 + c.toNat / 64 % 64 - 0x80)) * 64 +
              (0x80 + c.toNat % 64 - 0x80) = c.toNat := by omega
          rw [harith, Char.ofNat_toNat]
        · by_cases hF4 : c.toNat / 262144 = 4
          · have hb0 : 0xF0 + c.toNat / 262144 = 0xF4 := by omega
            rw [hb0, utf8SM_leadF4,
              utf8SM_cont _ _ _ _ _ _ ⟨by omega, by omega⟩ (by omega),
              utf8SM_cont _ _ _ _ _ _ ⟨by omega, by omega⟩ (by omega),
              utf8SM_fin _ _ _ _ _ ⟨by omega, by omega⟩]
            have harith : ((4 * 64 + (0x80 + c.toNat / 4096 % 64 - 0x80)) * 64 +
                (0x80 + c.toNat / 64 % 64 - 0x80)) * 64 +
                (0x80 + c.toNat % 64 - 0x80) = c.toNat := by omega
            rw [harith, Char.ofNat_toNat]
          · rw [utf8SM_lead4 _ _ _ _ _ ⟨by omega, by omega⟩,
              utf8SM_cont _ _ _ _ _ _ ⟨by omega, by omega⟩ (by omega),
              utf8SM_cont _ _ _ _ _ _ ⟨by omega, by omega⟩ (by omega),
              utf8SM_fin _ _ _ _ _ ⟨by omega, by omega⟩]
            have harith : (((0xF0 + c.toNat / 262144 - 0xF0) * 64 +
                (0x80 + c.toNat / 4096 % 64 - 0x80)) * 64 +
                (0x80 + c.toNat / 64 % 64 - 0x80)) * 64 +
                (0x80 + c.toNat % 64 - 0x80) = c.toNat := by omega
            rw [harith, Char.ofNat_toNat]

/-- Round trip of the text codec: decoding an encoded string recovers it. -/
theorem utf8Decode_utf8Encode (s : String) :
    utf8Decode (utf8Encode s) = s := by
  suffices h : ∀ cs : List Char,
      utf8DecodeSM 0 0 0x80 0xBF (cs.flatMap utf8EncodeChar) = cs by
    cases s with
    | mk data => exact congrArg String.mk (h data)
  intro cs
  induction cs with
  | nil => rfl
  | cons c cs ih =>
    simp only [List.flatMap_cons]
    rw [utf8DecodeSM_encodeChar, ih]

/-- Rebuilding a string from its characters is the identity. -/
theorem string_mk_data (s : String) : (⟨s.data⟩ : String) = s := by
  cases s; rfl

/-- The function `skipWs` is the identity on input that starts with non-whitespace. -/
theorem skipWs_cons (c : Char) (cs : List Char) (h : jsonWs c = false) :
    skipWs (c :: cs) = c :: cs := by
  simp [skipWs, List.dropWhile, h]

/-- Safe characters are not escaped by `JSON.stringify`. -/
theorem jsonEscapeChar_safe (c : Char) (h : jsonSafe c) :
    jsonEscapeChar c = [c] := by
  obtain ⟨h1, h2, h3⟩ := h
  rw [jsonEscapeChar, if_neg h1, if_neg h2,
    if_neg (fun hc => by subst hc; exact absurd h3 (by decide)),
    if_neg (fun hc => by subst hc; exact absurd h3 (by decide)),
    if_neg (fun hc => by subst hc; exact absurd h3 (by decide)),
    if_neg (fun hc => by subst hc; exact absurd h3 (by decide)),
    if_neg (fun hc => by subst hc; exact absurd h3 (by decide)),
    if_neg (by omega)]

/-- Safe characters pass through `flatMap jsonEscapeChar` unchanged. -/
theorem flatMap_jsonEscapeChar (l : List Char) (h : ∀ c ∈ l, jsonSafe c) :
    l.flatMap jsonEscapeChar = l := by
  induction l with
  | nil => rfl
  | cons c cs ih =>
    rw [List.flatMap_cons, jsonEscapeChar_safe c (h c (by simp)),
      ih (fun d hd => h d (by simp [hd]))]
    rfl

/-- Quoting a safe string adds no escapes. -/
theorem jsonQuote_safe (s : String) (h : ∀ c ∈ s.data, jsonSafe c) :
    (jsonQuote s).data = '"' :: (s.data ++ ['"']) := by
  show '"' :: (s.data.flatMap jsonEscapeChar ++ ['"']) = _
  rw [flatMap_jsonEscapeChar s.data h]

/-- Parsing quoted safe content returns the content and the rest. -/
theorem parseStringBody_safe (cs : List Char) :
    ∀ rest, (∀ c ∈ cs, jsonSafe c) →
      parseStringBody (cs ++ '"' :: rest) = some (cs, rest) := by
  induction cs with
  | nil =>
    intro rest _
    rw [List.nil_append, parseStringBody.eq_def]
    rfl
  | cons c cs ih =>
    intro rest h
    obtain ⟨h1, h2, h3⟩ := h c (by simp)
    rw [List.cons_append, parseStringBody.eq_def]
    simp only [if_neg h1, if_neg h2, if_neg (by omega : ¬ c.toNat < 0x20),
      ih rest (fun d hd => h d (by simp [hd])), Option.map_some]
    rfl

/-- Parsing a quoted safe string value returns the string and the rest. -/
theorem parseValue_str (k : Nat) (hk : 1 ≤ k) (content rest : List Char)
    (h : ∀ c ∈ content, jsonSafe c) :
    parseValue k ('"' :: (content ++ '"' :: rest)) =
      some (Json.str ⟨content⟩, rest) := by
  obtain ⟨k', rfl⟩ : ∃ k', k = k' + 1 := ⟨k - 1, by omega⟩
  simp only [parseValue]
  rw [skipWs_cons _ _ (by decide)]
  simp [parseStringBody_safe content rest h]

/-- Parsing a final `"key":"value"` member before the closing brace. -/
theorem parseMembers_strMember_last (m : Nat) (hm : 2 ≤ m)
    (key content rest : List Char)
    (hkey : ∀ c ∈ key, jsonSafe c)
    (hcontent : ∀ c ∈ content, jsonSafe c) :
    parseMembers m
        ('"' :: (key ++ '"' :: ':' :: '"' :: (content ++ '"' :: '\x7d' :: rest))) =
      some ([(⟨key⟩, Json.str ⟨content⟩)], rest) := by
  obtain ⟨k, rfl⟩ : ∃ k, m = k + 1 := ⟨m - 1, by omega⟩
  simp only [parseMembers]
  rw [skipWs_cons _ _ (by decide)]
  simp [skipWs_cons, jsonWs,
    parseStringBody_safe key (':' :: '"' :: (content ++ '"' :: '\x7d' :: rest)) hkey,
    parseValue_str k (by omega) content ('\x7d' :: rest) hcontent]

/-- Parsing a `"key":"value",` member followed by further members. -/
theorem parseMembers_strMember_cons (m : Nat) (hm : 2 ≤ m)
    (key content rest : List Char)
    (hkey : ∀ c ∈ key, jsonSafe c)
    (hcontent : ∀ c ∈ content, jsonSafe c) :
    parseMembers m
        ('"' :: (key ++ '"' :: ':' :: '"' :: (content ++ '"' :: ',' :: rest))) =
      (parseMembers (m - 1) rest).map fun p =>
        ((⟨key⟩, Json.str ⟨content⟩) :: p.1, p.2) := by
  obtain ⟨k, rfl⟩ : ∃ k, m = k + 1 := ⟨m - 1, by omega⟩
  simp only [parseMembers, Nat.add_sub_cancel]
  rw [skipWs_cons _ _ (by decide)]
  simp [skipWs_cons, jsonWs,
    parseStringBody_safe key (':' :: '"' :: (content ++ '"' :: ',' :: rest)) hkey,
    parseValue_str k (by omega) content (',' :: rest) hcontent]

/-- The wire form of a blob with escape-free fields, grouped for parsing. -/
theorem stringifyEncryptedData_data (d : EncryptedData)
    (hct : ∀ c ∈ d.cipherText.data, jsonSafe c)
    (hsalt : ∀ c ∈ d.salt.data, jsonSafe c)
    (hiv : ∀ c ∈ d.iv.data, jsonSafe c) :
    (stringifyEncryptedData d).data =
      '\x7b' :: '"' :: ("cipherText".data ++ '"' :: ':' :: '"' ::
        (d.cipherText.data ++ '"' :: ',' :: '"' :: ("salt".data ++ '"' :: ':' :: '"' ::
          (d.salt.data ++ '"' :: ',' :: '"' :: ("iv".data ++ '"' :: ':' :: '"' ::
            (d.iv.data ++ ['"', '\x7d'])))))) := by
  simp [stringifyEncryptedData, String.data_append, jsonQuote_safe _ hct,
    jsonQuote_safe _ hsalt, jsonQuote_safe _ hiv]

/-- Parsing the serialized blob (with escape-free fields) recovers the
three-member object, consuming the whole input. -/
theorem parseValue_stringifyEncryptedData (n : Nat) (hn : 5 ≤ n)
    (d : EncryptedData)
    (hct : ∀ c ∈ d.cipherText.data, jsonSafe c)
    (hsalt : ∀ c ∈ d.salt.data, jsonSafe c)
    (hiv : ∀ c ∈ d.iv.data, jsonSafe c) :
    parseValue n (stringifyEncryptedData d).data =
      some (Json.obj [("cipherText", Json.str d.cipherText),
        ("salt", Json.str d.salt), ("iv", Json.str d.iv)], []) := by
  obtain ⟨k, rfl⟩ : ∃ k, n = k + 1 := ⟨n - 1, by omega⟩
  rw [stringifyEncryptedData_data d hct hsalt hiv]
  simp only [parseValue]
  rw [skipWs_cons _ _ (by decide)]
  simp only [if_neg (by decide : ¬ ('\x7b' : Char) = '"'), if_pos rfl]
  rw [skipWs_cons _ _ (by decide)]
  have h1 := parseMembers_strMember_cons k (by omega) "cipherText".data
    d.cipherText.data
    ('"' :: ("salt".data ++ '"' :: ':' :: '"' ::
      (d.salt.data ++ '"' :: ',' :: '"' :: ("iv".data ++ '"' :: ':' :: '"' ::
        (d.iv.data ++ ['"', '\x7d'])))))
    (by decide) hct
  have h2 := parseMembers_strMember_cons (k - 1) (by omega) "salt".data
    d.salt.data
    ('"' :: ("iv".data ++ '"' :: ':' :: '"' :: (d.iv.data ++ ['"', '\x7d'])))
    (by decide) hsalt
  have h3 := parseMembers_strMember_last (k - 1 - 1) (by omega) "iv".data
    d.iv.data [] (by decide) hiv
  simp at h1 h2 h3
  simp [h1, h2, h3, string_mk_data]

/-- Parsing the serialized blob (with escape-free fields) with `JSON.parse`. -/
theorem jsonParse_stringifyEncryptedData (d : EncryptedData)
    (hct : ∀ c ∈ d.cipherText.data, jsonSafe c)
    (hsalt : ∀ c ∈ d.salt.data, jsonSafe c)
    (hiv : ∀ c ∈ d.iv.data, jsonSafe c) :
    jsonParse (stringifyEncryptedData d) =
      some (Json.obj [("cipherText", Json.str d.cipherText),
        ("salt", Json.str d.salt), ("iv", Json.str d.iv)]) := by
  have hlen : 5 ≤ (stringifyEncryptedData d).data.length + 1 := by
    rw [stringifyEncryptedData_data d hct hsalt hiv]
    simp
  rw [jsonParse, parseValue_stringifyEncryptedData _ hlen d hct hsalt hiv]
  rfl

/-- Every base64 character (alphabet or padding) is JSON-safe. -/
theorem uint8ArrayToBase64_safe (bs : List Nat) :
    ∀ c ∈ (uint8ArrayToBase64 bs).data, jsonSafe c := by
  intro c hc
  have halpha : ∀ v : Nat, jsonSafe (alpha v) := by
    intro v
    unfold alpha
    rcases Nat.lt_or_ge v b64Alphabet.length with hlt | hge
    · have hmem : b64Alphabet.getD v 'A' ∈ b64Alphabet := by
        rw [List.getD_eq_getElem b64Alphabet 'A' hlt]
        exact List.getElem_mem hlt
      have hall : ∀ c ∈ b64Alphabet, jsonSafe c := by decide
      exact hall _ hmem
    · rw [List.getD_eq_default b64Alphabet 'A' hge]
      decide
  rcases List.mem_append.mp hc with hc | hc
  · obtain ⟨v, -, rfl⟩ := List.mem_map.mp hc
    exact halpha v
  · have : c = '=' := List.eq_of_mem_replicate hc
    subst this
    decide

/-- Field lookup on the parsed blob object. -/
theorem getField_blobObj (ct s iv : String) :
    getField (Json.obj [("cipherText", Json.str ct), ("salt", Json.str s),
        ("iv", Json.str iv)]) "cipherText" = some (Json.str ct) ∧
    getField (Json.obj [("cipherText", Json.str ct), ("salt", Json.str s),
        ("iv", Json.str iv)]) "salt" = some (Json.str s) ∧
    getField (Json.obj [("cipherText", Json.str ct), ("salt", Json.str s),
        ("iv", Json.str iv)]) "iv" = some (Json.str iv) := by
  refine ⟨?_, ?_, ?_⟩ <;>
    simp [getField, List.find?_cons_of_neg, List.find?_cons_of_pos]

/-- Vault Codec round trip: decrypting an encrypted blob with the same
password recovers the plaintext, for byte-valued salt and iv. -/
theorem decryptData_encryptData (data password : String) (salt iv : List Nat)
    (hsalt : bytesOk salt) (hiv : bytesOk iv) :
    decryptData (encryptData data password salt iv) password =
      Except.ok data := by
  have hctbytes : bytesOk (subtleEncrypt (deriveKey password salt) iv
      (utf8Encode data)) :=
    subtleEncrypt_bytes _ _ _ (utf8Encode_bytes data)
  have hparse := jsonParse_stringifyEncryptedData
    { cipherText := uint8ArrayToBase64 (subtleEncrypt (deriveKey password salt)
        iv (utf8Encode data))
      salt := uint8ArrayToBase64 salt
      iv := uint8ArrayToBase64 iv }
    (uint8ArrayToBase64_safe _) (uint8ArrayToBase64_safe _)
    (uint8ArrayToBase64_safe _)
  rw [encryptData, decryptData, hparse]
  obtain ⟨hf1, hf2, hf3⟩ := getField_blobObj
    (uint8ArrayToBase64 (subtleEncrypt (deriveKey password salt) iv
      (utf8Encode data)))
    (uint8ArrayToBase64 salt) (uint8ArrayToBase64 iv)
  simp only [hf1, hf2, hf3, jsToString, jsToStringJson,
    base64_roundtrip _ hctbytes, base64_roundtrip _ hsalt,
    base64_roundtrip _ hiv, subtleDecrypt_subtleEncrypt,
    utf8Decode_utf8Encode]

/-- Decrypting with a different password fails with the unified
decryption error. -/
theorem decryptData_encryptData_wrong_password (data pw1 pw2 : String)
    (salt iv : List Nat) (hsalt : bytesOk salt) (hiv : bytesOk iv)
    (hne : pw1 ≠ pw2) :
    decryptData (encryptData data pw1 salt iv) pw2 =
      Except.error VaultError.decryptionFailed := by
  have hctbytes : bytesOk (subtleEncrypt (deriveKey pw1 salt) iv
      (utf8Encode data)) :=
    subtleEncrypt_bytes _ _ _ (utf8Encode_bytes data)
  have hparse := jsonParse_stringifyEncryptedData
    { cipherText := uint8ArrayToBase64 (subtleEncrypt (deriveKey pw1 salt)
        iv (utf8Encode data))
      salt := uint8ArrayToBase64 salt
      iv := uint8ArrayToBase64 iv }
    (uint8ArrayToBase64_safe _) (uint8ArrayToBase64_safe _)
    (uint8ArrayToBase64_safe _)
  have hkeys : deriveKey pw2 salt ≠ deriveKey pw1 salt := by
    intro h
    exact hne (congrArg DerivedKey.password h).symm
  rw [encryptData, decryptData, hparse]
  obtain ⟨hf1, hf2, hf3⟩ := getField_blobObj
    (uint8ArrayToBase64 (subtleEncrypt (deriveKey pw1 salt) iv
      (utf8Encode data)))
    (uint8ArrayToBase64 salt) (uint8ArrayToBase64 iv)
  simp only [hf1, hf2, hf3, jsToString, jsToStringJson,
    base64_roundtrip _ hctbytes, base64_roundtrip _ hsalt,
    base64_roundtrip _ hiv,
    subtleDecrypt_wrong_key (deriveKey pw1 salt) (deriveKey pw2 salt)
      iv (utf8Encode data) hkeys]

/-- Base64 packaging is injective on byte lists. -/
theorem uint8ArrayToBase64_inj (x y : List Nat) (hx : bytesOk x)
    (hy : bytesOk y) (h : uint8ArrayToBase64 x = uint8ArrayToBase64 y) :
    x = y := by
  have hr := base64_roundtrip x hx
  rw [h, base64_roundtrip y hy] at hr
  exact (Option.some.injEq _ _).mp hr.symm

/-- Idealized ciphertexts under different salts differ. -/
theorem subtleEncrypt_ne_of_salt_ne (pw : String) (s1 s2 i1 i2 pt : List Nat)
    (hne : s1 ≠ s2) :
    subtleEncrypt (deriveKey pw s1) i1 pt ≠
      subtleEncrypt (deriveKey pw s2) i2 pt := by
  intro h
  obtain ⟨hk, -⟩ := subtleEncrypt_inj_key _ _ _ _ _ h
  exact hne (congrArg DerivedKey.salt hk)

/-- The malformed-blob error arises exactly on inputs `JSON.parse`
rejects. -/
theorem decryptData_malformed_iff (s pw : String) :
    decryptData s pw = Except.error VaultError.malformed ↔
      jsonParse s = none := by
  cases hj : jsonParse s with
  | none => simp [decryptData, hj]
  | some j =>
    simp only [decryptData, hj]
    cases j <;>
      (refine ⟨fun h => ?_, fun h => by simp at h⟩
       repeat' split at h
       all_goals simp_all)

/-- Blobs encrypted under different salts are different strings. -/
theorem encryptData_ne_of_salt_ne (P pw : String) (s1 i1 s2 i2 : List Nat)
    (hs1 : bytesOk s1) (hs2 : bytesOk s2) (hne : s1 ≠ s2) :
    encryptData P pw s1 i1 ≠ encryptData P pw s2 i2 := by
  intro h
  have h1 := jsonParse_stringifyEncryptedData
    { cipherText := uint8ArrayToBase64 (subtleEncrypt (deriveKey pw s1) i1
        (utf8Encode P))
      salt := uint8ArrayToBase64 s1
      iv := uint8ArrayToBase64 i1 }
    (uint8ArrayToBase64_safe _) (uint8ArrayToBase64_safe _)
    (uint8ArrayToBase64_safe _)
  have h2 := jsonParse_stringifyEncryptedData
    { cipherText := uint8ArrayToBase64 (subtleEncrypt (deriveKey pw s2) i2
        (utf8Encode P))
      salt := uint8ArrayToBase64 s2
      iv := uint8ArrayToBase64 i2 }
    (uint8ArrayToBase64_safe _) (uint8ArrayToBase64_safe _)
    (uint8ArrayToBase64_safe _)
  rw [encryptData] at h
  rw [h] at h1
  have h2' : jsonParse (encryptData P pw s2 i2) =
      some (Json.obj
        [("cipherText", Json.str (uint8ArrayToBase64 (subtleEncrypt
            (deriveKey pw s2) i2 (utf8Encode P)))),
         ("salt", Json.str (uint8ArrayToBase64 s2)),
         ("iv", Json.str (uint8ArrayToBase64 i2))]) := h2
  have hcomb := h1.symm.trans h2'
  simp only [Option.some.injEq, Json.obj.injEq, List.cons.injEq,
    Prod.mk.injEq, Json.str.injEq, and_true, true_and] at hcomb
  exact hne (uint8ArrayToBase64_inj s1 s2 hs1 hs2 hcomb.2.1)

/-- Every handler preserves the session invariant. -/
theorem dispatch_preserves_sessionInv (st : BgState) (env : Env)
    (msg : Message) (h : sessionInv st) :
    sessionInv (dispatch st env msg).1 := by
  unfold sessionInv at h ⊢
  cases msg <;>
    simp only [dispatch, handleGenerateWallet, handleGetWalletStatus,
      handleUnlockWallet, handleLockWallet, handleGetBalance,
      handleGetNetwork, handleSetNetwork, initSdk] <;>
    (repeat' split) <;> simp_all

/-- The session invariant holds along every trace from a fresh start. -/
theorem runTrace_sessionInv (store : StoreState) (trace : List Invocation) :
    sessionInv (runTrace (initialBgState store) trace) := by
  have hgen : ∀ (st : BgState), sessionInv st →
      ∀ tr : List Invocation, sessionInv (runTrace st tr) := by
    intro st hst tr
    induction tr generalizing st with
    | nil => exact hst
    | cons i tr ih =>
      rw [runTrace, List.foldl_cons]
      exact ih _ (dispatch_preserves_sessionInv st i.env i.msg hst)
  exact hgen _ (fun h => by simp [initialBgState] at h) trace

/-- C1: Vault Codec round-trip: for every plaintext `P` and password
`pw`, decrypting the blob produced by `encryptData P pw` (under any
byte-valued salt and iv drawn as its randomness) with the same password
returns exactly `P`. -/
theorem claim_C1 (P pw : String) (salt iv : List Nat)
    (hsalt : bytesOk salt) (hiv : bytesOk iv) :
    decryptData (encryptData P pw salt iv) pw = Except.ok P :=
  decryptData_encryptData P pw salt iv hsalt hiv

/-- Witness for C1 at a concrete plaintext, password, salt and iv. -/
theorem claim_C1_witness :
    decryptData (encryptData "seed words" "hunter2" [7, 255] [1]) "hunter2" =
      Except.ok "seed words" :=
  claim_C1 "seed words" "hunter2" [7, 255] [1] (by decide) (by decide)

/-- C4 counterexample: the input `"\x7b\x7d"` (an empty JSON object) is
not parseable as the three required fields, yet `decryptData` does not
fail with the malformed-blob error: the absent field coerces to the
string `"undefined"`, whose length is 1 mod 4, so `atob` throws an
uncaught `InvalidCharacterError` instead. -/
theorem claim_C4_counterexample :
    decryptData "\x7b\x7d" "pw" = Except.error VaultError.invalidChar ∧
    ¬ decryptData "\x7b\x7d" "pw" = Except.error VaultError.malformed := by
  constructor
  · decide
  · decide

/-- C4 (amended): `decryptData` fails with the malformed-blob error
(`'Invalid encrypted data format'`) exactly when the input is not
parseable as JSON, before any key derivation; a JSON input lacking the
three required fields instead escapes with a base64 `InvalidCharacterError`
(or a `TypeError` for `null`), still before any cryptographic operation;
the malformed-blob error is distinct from the decryption-failure error. -/
theorem claim_C4_amended (s pw : String) :
    (decryptData s pw = Except.error VaultError.malformed ↔
      jsonParse s = none) ∧
    vaultErrorMessage VaultError.malformed ≠
      vaultErrorMessage VaultError.decryptionFailed :=
  ⟨decryptData_malformed_iff s pw, by decide⟩

/-- Witness for C4 (amended) at the spec's own example input. -/
theorem claim_C4_amended_witness :
    decryptData "not json" "x" = Except.error VaultError.malformed :=
  (claim_C4_amended "not json" "x").1.mpr (by rfl)

/-- C5: decrypting with a wrong password fails with the unified
decryption error (never a plausible wrong plaintext), and the error for a
corrupted ciphertext is the identical error value. -/
theorem claim_C5 (P pw1 pw2 : String) (salt iv : List Nat)
    (hsalt : bytesOk salt) (hiv : bytesOk iv) (hne : pw1 ≠ pw2) :
    decryptData (encryptData P pw1 salt iv) pw2 =
      Except.error VaultError.decryptionFailed ∧
    decryptData corruptedVaultBlob "pw1" =
      Except.error VaultError.decryptionFailed :=
  ⟨decryptData_encryptData_wrong_password P pw1 pw2 salt iv hsalt hiv hne,
   by decide⟩

/-- Witness for C5 at concrete passwords. -/
theorem claim_C5_witness :
    decryptData (encryptData "seed" "pw1" [1, 2] [3]) "pw2" =
      Except.error VaultError.decryptionFailed :=
  (claim_C5 "seed" "pw1" "pw2" [1, 2] [3] (by decide) (by decide)
    (by decide)).1

/-- C9: two encryptions of the same plaintext and password under
independently drawn (hence distinct) salts and ivs produce different
blobs — differing in the stored ciphertext, salt and iv fields — and both
decrypt back to the plaintext. -/
theorem claim_C9 (P pw : String) (s1 i1 s2 i2 : List Nat)
    (hs1 : bytesOk s1) (hi1 : bytesOk i1) (hs2 : bytesOk s2)
    (hi2 : bytesOk i2) (hsne : s1 ≠ s2) (hine : i1 ≠ i2) :
    encryptData P pw s1 i1 ≠ encryptData P pw s2 i2 ∧
    uint8ArrayToBase64 (subtleEncrypt (deriveKey pw s1) i1 (utf8Encode P)) ≠
      uint8ArrayToBase64 (subtleEncrypt (deriveKey pw s2) i2 (utf8Encode P)) ∧
    uint8ArrayToBase64 s1 ≠ uint8ArrayToBase64 s2 ∧
    uint8ArrayToBase64 i1 ≠ uint8ArrayToBase64 i2 ∧
    decryptData (encryptData P pw s1 i1) pw = Except.ok P ∧
    decryptData (encryptData P pw s2 i2) pw = Except.ok P := by
  refine ⟨encryptData_ne_of_salt_ne P pw s1 i1 s2 i2 hs1 hs2 hsne,
    ?_, ?_, ?_,
    decryptData_encryptData P pw s1 i1 hs1 hi1,
    decryptData_encryptData P pw s2 i2 hs2 hi2⟩
  · intro h
    have hct := uint8ArrayToBase64_inj _ _
      (subtleEncrypt_bytes _ _ _ (utf8Encode_bytes P))
      (subtleEncrypt_bytes _ _ _ (utf8Encode_bytes P)) h
    exact subtleEncrypt_ne_of_salt_ne pw s1 s2 i1 i2 (utf8Encode P) hsne hct
  · intro h
    exact hsne (uint8ArrayToBase64_inj s1 s2 hs1 hs2 h)
  · intro h
    exact hine (uint8ArrayToBase64_inj i1 i2 hi1 hi2 h)

/-- Witness for C9 at concrete distinct salts and ivs. -/
theorem claim_C9_witness :
    encryptData "m" "p" [0] [1] ≠ encryptData "m" "p" [2] [3] :=
  (claim_C9 "m" "p" [0] [1] [2] [3] (by decide) (by decide) (by decide)
    (by decide) (by decide) (by decide)).1

/-- The state after `initSdk` holds whatever handle the SDK produced
(`none` after a failed construction). -/
theorem initSdk_fst (st : BgState) (env : Env) (m : String) (n : Network) :
    (initSdk st env m n).1 = { st with walletInstance := env.sdkCreate } := by
  cases h : env.sdkCreate <;> simp [initSdk, h]

/-- C2: unlock asymmetry: when the stored blob decrypts under the given
password but the SDK handle construction fails, the unlock still returns
`{success: true}` with the session secret set and the handle cleared; a
subsequent status read reports `locked: false`, and a subsequent
`GetBalance` returns the "Wallet not initialized" failure without
relocking the session. -/
theorem claim_C2 (st : BgState) (env benv : Env) (pw enc m : String)
    (henc : st.store.encryptedWallet = some enc)
    (hdec : decryptData enc pw = Except.ok m)
    (hsdk : env.sdkCreate = none) :
    dispatch st env (Message.UnlockWallet pw) =
      ({ st with sessionMnemonic := some m, walletInstance := none },
       { success := true, data := some RData.ok, error := none }) ∧
    (dispatch (dispatch st env (Message.UnlockWallet pw)).1 benv
        Message.GetWalletStatus).2 =
      { success := true
        data := some (RData.status (hasWallet st.store) false)
        error := none } ∧
    dispatch (dispatch st env (Message.UnlockWallet pw)).1 benv
        Message.GetBalance =
      ((dispatch st env (Message.UnlockWallet pw)).1,
       { success := false, data := none,
         error := some "Wallet not initialized" }) := by
  have h1 : dispatch st env (Message.UnlockWallet pw) =
      ({ st with sessionMnemonic := some m, walletInstance := none },
       { success := true, data := some RData.ok, error := none }) := by
    simp [dispatch, handleUnlockWallet, loadEncryptedWallet, henc, hdec,
      initSdk, hsdk]
  refine ⟨h1, ?_, ?_⟩
  · rw [h1]
    simp [dispatch, handleGetWalletStatus, hasWallet]
  · rw [h1]
    simp [dispatch, handleGetBalance]

/-- Witness for C2 at a concrete store, password and failing SDK. -/
theorem claim_C2_witness :
    dispatch (initialBgState storeW) envWFail (Message.UnlockWallet "p") =
      ({ initialBgState storeW with
          sessionMnemonic := some "m", walletInstance := none },
       { success := true, data := some RData.ok, error := none }) :=
  (claim_C2 (initialBgState storeW) envWFail envW "p"
    (encryptData "m" "p" [] []) "m" rfl (by decide) rfl).1

/-- C3: session-state invariant: in every state reachable from a freshly
started service worker by any sequence of handler invocations, the
privileged handle is present only if the session secret is present; and
`LockWallet` clears both together, always succeeding. -/
theorem claim_C3 :
    (∀ (store : StoreState) (trace : List Invocation),
        (runTrace (initialBgState store) trace).walletInstance.isSome →
        (runTrace (initialBgState store) trace).sessionMnemonic.isSome) ∧
    (∀ (st : BgState) (env : Env),
        (dispatch st env Message.LockWallet).1.sessionMnemonic = none ∧
        (dispatch st env Message.LockWallet).1.walletInstance = none ∧
        (dispatch st env Message.LockWallet).2 =
          { success := true, data := some RData.ok, error := none }) :=
  ⟨fun store trace => runTrace_sessionInv store trace,
   fun _ _ => ⟨rfl, rfl, rfl⟩⟩

/-- Witness for C3 on a concrete trace that establishes a handle. -/
theorem claim_C3_witness :
    (runTrace (initialBgState storeW)
      [⟨envW, Message.UnlockWallet "p"⟩]).sessionMnemonic.isSome :=
  claim_C3.1 storeW [⟨envW, Message.UnlockWallet "p"⟩] (by decide)

/-- C6 counterexample: with the session unlocked and a working handle,
when the balance query raises the off-chain not-found fault, `GetBalance`
returns a failure envelope carrying that fault — not the success response
`{onchain: 1000, offchain: 0}` the claim requires. -/
theorem claim_C6_counterexample :
    dispatch unlockedBg offchainFailEnv Message.GetBalance =
      (unlockedBg,
       { success := false, data := none,
         error := some "vtxo set not found" }) ∧
    ¬ dispatch unlockedBg offchainFailEnv Message.GetBalance =
        (unlockedBg,
         { success := true, data := some (RData.balance 1000 0),
           error := none }) := by
  constructor
  · decide
  · decide

/-- C6 (amended): the handler makes one combined balance call; when that
call throws, `GetBalance` returns a failure response — the connection
message if the fault mentions network conditions, otherwise the fault's
own message — and a success response `{onchain, offchain}` arises only
when the call itself returns those totals.  There is no per-subsystem
degradation to zero. -/
theorem claim_C6_amended (st : BgState) (env : Env) :
    (∀ msg : String, st.walletInstance.isSome →
      env.balanceResult = Except.error msg →
      dispatch st env Message.GetBalance =
        (st,
         { success := false, data := none
           error := some (if strIncludes msg "network" ||
               strIncludes msg "fetch" || strIncludes msg "connection" ||
               strIncludes msg "Failed to fetch" then
             "Unable to connect to Ark Service Provider. Please check your connection."
           else msg) })) ∧
    (∀ a b : Nat, st.walletInstance.isSome →
      env.balanceResult = Except.ok (a, b) →
      dispatch st env Message.GetBalance =
        (st,
         { success := true, data := some (RData.balance a b),
           error := none })) := by
  constructor
  · intro msg hw hb
    obtain ⟨u, hu⟩ := Option.isSome_iff_exists.mp hw
    simp only [dispatch, handleGetBalance, hu, hb]
    split <;> simp_all
  · intro a b hw hb
    obtain ⟨u, hu⟩ := Option.isSome_iff_exists.mp hw
    simp [dispatch, handleGetBalance, hu, hb]

/-- Witness for C6 (amended) at the concrete off-chain fault. -/
theorem claim_C6_amended_witness :
    dispatch unlockedBg offchainFailEnv Message.GetBalance =
      (unlockedBg,
       { success := false, data := none
         error := some (if strIncludes "vtxo set not found" "network" ||
             strIncludes "vtxo set not found" "fetch" ||
             strIncludes "vtxo set not found" "connection" ||
             strIncludes "vtxo set not found" "Failed to fetch" then
           "Unable to connect to Ark Service Provider. Please check your connection."
         else "vtxo set not found") }) :=
  (claim_C6_amended unlockedBg offchainFailEnv).1 "vtxo set not found"
    (by decide) rfl

/-- C7: router totality: every message value — including one with an
unrecognized tag — produces exactly one well-formed response (success
responses carry no error; failure responses carry one), and an unknown
tag yields `{success: false, error: "Unknown message type: <tag>"}`. -/
theorem claim_C7 (st : BgState) (env : Env) :
    (∀ msg : Message,
        ((dispatch st env msg).2.success = true ∧
          (dispatch st env msg).2.error = none) ∨
        ((dispatch st env msg).2.success = false ∧
          (dispatch st env msg).2.error.isSome = true)) ∧
    (∀ t : String, dispatch st env (Message.Unknown t) =
        (st,
         { success := false, data := none
           error := some ("Unknown message type: " ++ t) })) := by
  constructor
  · intro msg
    cases msg <;>
      simp only [dispatch, handleGenerateWallet, handleGetWalletStatus,
        handleUnlockWallet, handleLockWallet, handleGetBalance,
        handleGetNetwork, handleSetNetwork, initSdk] <;>
      (repeat' split) <;> simp_all
  · intro t
    rfl

/-- C8: status sequencing: `GetWalletStatus` is a pure read returning
`initialized = hasWallet`, `locked = (secret is none)`; from the empty
store it reports `(false, true)`; after a successful generate,
`(true, true)`; after unlocking with the same password, `(true, false)`;
after locking, `(true, true)`. -/
theorem claim_C8 (pw : String) (envs env1 env2 env3 : Env)
    (hsalt : bytesOk env1.salt) (hiv : bytesOk env1.iv) :
    (∀ (st : BgState) (env : Env),
        dispatch st env Message.GetWalletStatus =
          (st,
           { success := true
             data := some (RData.status (hasWallet st.store)
               st.sessionMnemonic.isNone)
             error := none })) ∧
    (dispatch (initialBgState ⟨none, none⟩) envs
        Message.GetWalletStatus).2.data = some (RData.status false true) ∧
    (dispatch ((dispatch (initialBgState ⟨none, none⟩) env1
        (Message.GenerateWallet pw)).1) envs
        Message.GetWalletStatus).2.data = some (RData.status true true) ∧
    (dispatch ((dispatch ((dispatch (initialBgState ⟨none, none⟩) env1
        (Message.GenerateWallet pw)).1) env2
        (Message.UnlockWallet pw)).1) envs
        Message.GetWalletStatus).2.data = some (RData.status true false) ∧
    (dispatch ((dispatch ((dispatch ((dispatch
        (initialBgState ⟨none, none⟩) env1
        (Message.GenerateWallet pw)).1) env2
        (Message.UnlockWallet pw)).1) env3 Message.LockWallet).1) envs
        Message.GetWalletStatus).2.data = some (RData.status true true) := by
  have hstatus : ∀ (st : BgState) (env : Env),
      dispatch st env Message.GetWalletStatus =
        (st,
         { success := true
           data := some (RData.status (hasWallet st.store)
             st.sessionMnemonic.isNone)
           error := none }) := fun st env => rfl
  have hst1 : (dispatch (initialBgState ⟨none, none⟩) env1
      (Message.GenerateWallet pw)).1 =
      ⟨none, none,
       ⟨some (encryptData env1.mnemonic pw env1.salt env1.iv), none⟩⟩ := rfl
  have hst2 : (dispatch (⟨none, none,
        ⟨some (encryptData env1.mnemonic pw env1.salt env1.iv), none⟩⟩ :
        BgState) env2 (Message.UnlockWallet pw)).1 =
      ⟨some env1.mnemonic, env2.sdkCreate,
       ⟨some (encryptData env1.mnemonic pw env1.salt env1.iv), none⟩⟩ := by
    simp only [dispatch, handleUnlockWallet, loadEncryptedWallet,
      decryptData_encryptData env1.mnemonic pw env1.salt env1.iv hsalt hiv,
      initSdk_fst]
  refine ⟨hstatus, by rfl, ?_, ?_, ?_⟩
  · rw [hst1, hstatus]
    simp [hasWallet]
  · rw [hst1, hst2, hstatus]
    simp [hasWallet]
  · rw [hst1, hst2]
    rw [hstatus]
    simp [dispatch, handleLockWallet, hasWallet]

/-- Witness for C8 at a concrete password and environments. -/
theorem claim_C8_witness :
    (dispatch ((dispatch ((dispatch (initialBgState ⟨none, none⟩) envW
        (Message.GenerateWallet "p")).1) envW
        (Message.UnlockWallet "p")).1) envW
        Message.GetWalletStatus).2.data = some (RData.status true false) :=
  (claim_C8 "p" envW envW envW envW (by decide) (by decide)).2.2.2.1

/-- C10: `handleGenerateWallet` performs no existence check: from every
state — including one with a persisted blob — `GenerateWallet`
unconditionally overwrites the stored blob with the freshly generated
encrypted mnemonic and returns success, leaving the in-memory session
secret and handle unchanged. -/
theorem claim_C10 (st : BgState) (env : Env) (pw : String) :
    dispatch st env (Message.GenerateWallet pw) =
      ({ st with
          store := { st.store with
            encryptedWallet :=
              some (encryptData env.mnemonic pw env.salt env.iv) } },
       { success := true, data := some RData.ok, error := none }) ∧
    (dispatch st env (Message.GenerateWallet pw)).1.sessionMnemonic =
      st.sessionMnemonic ∧
    (dispatch st env (Message.GenerateWallet pw)).1.walletInstance =
      st.walletInstance :=
  ⟨rfl, rfl, rfl⟩

end CoinOp
